import Mathlib

/-!
Verification development for the node-builder headless graph engine.

The TypeScript sources under `src/core` and `src/react` are shallowly
embedded here:

* JavaScript `Map` objects become association lists (`List (String × α)`)
  with insertion-order semantics (`mget`, `mset`, `mdel`, `mhas`).
* JavaScript numbers become `ℚ` (positions, routing geometry) or `Int`
  (identifier counters, history limits); exact comparisons in the source
  (`===`, `<=`) become the corresponding decidable comparisons.
* Reference identity, which the source uses to signal "no mutation
  occurred" (every mutating path goes through `clone_graph`, which
  allocates a fresh object), is modelled by `Option Graph`: `none` means
  the function returned its input reference unchanged, `some g` means it
  returned a freshly allocated graph `g`.
* Thrown exceptions become `Except Err`; the identifier generator's
  module-level mutable counters are threaded explicitly (`Counters`),
  and a function that can both mutate the counters and throw returns
  `Counters × Except Err _` so that the counter state at throw time is
  observable, exactly as the surviving global state is in JavaScript.
* `Math.sqrt` (reachable through `Math.hypot`) has no exact rational
  counterpart, so the edge-routing module is parameterised by the square
  root function `S : ℚ → ℚ`; theorems constrain `S` only by the
  equations float sqrt actually satisfies at the relevant inputs.
-/

namespace NodeBuilder

/- The Batteries rational primitives are `@[irreducible]`, which blocks
`decide` from evaluating the embedded geometry on concrete inputs;
restore the default reducibility for this development. -/
attribute [local semireducible] Rat.mul Rat.add Rat.sub Rat.inv Rat.ofScientific

/-! ## Errors (src/core error taxonomy, §7 of the spec) -/

inductive Err where
  | duplicate_node (id : String)
  | duplicate_port (id : String)
  | unknown_node (id : String)
  | unknown_port (id : String)
  | invalid_port_direction (id : String)
  | duplicate_edge (id : String)
  | history_configuration
  | routing_consistency
  deriving DecidableEq

/-- Decidable equality of results, used to evaluate witnesses. -/
instance {ε α : Type} [DecidableEq ε] [DecidableEq α] : DecidableEq (Except ε α)
  | .error e, .error f =>
      if h : e = f then .isTrue (by rw [h]) else .isFalse (fun hc => h (by cases hc; rfl))
  | .error _, .ok _ => .isFalse (fun hc => by cases hc)
  | .ok _, .error _ => .isFalse (fun hc => by cases hc)
  | .ok a, .ok b =>
      if h : a = b then .isTrue (by rw [h]) else .isFalse (fun hc => h (by cases hc; rfl))

/-! ## JavaScript `Map` as an insertion-ordered association list -/

/-- `Map.get`: value of the first (only) entry with the given key. -/
def mget {α : Type} : List (String × α) → String → Option α
  | [], _ => none
  | (k, v) :: rest, key => if k = key then some v else mget rest key

/-- `Map.set`: replace in place if the key exists, else append. -/
def mset {α : Type} : List (String × α) → String → α → List (String × α)
  | [], key, val => [(key, val)]
  | (k, v) :: rest, key, val =>
      if k = key then (key, val) :: rest else (k, v) :: mset rest key val

/-- `Map.has`. -/
def mhas {α : Type} (m : List (String × α)) (key : String) : Bool :=
  m.any (fun kv => kv.1 = key)

/-- `Map.delete`: removes the entry with the key, keeping order. A `Map`
never holds two entries with one key, so dropping every match is the
same as dropping the single one. -/
def mdel {α : Type} (m : List (String × α)) (key : String) : List (String × α) :=
  m.filter (fun kv => ¬kv.1 = key)

/-! ## Data model (src/core/types.ts) -/

inductive Port_side where
  | top | right | bottom | left
  deriving DecidableEq

inductive Port_kind where
  | inp  -- the source's 'in' (a reserved word here)
  | out
  deriving DecidableEq

/-- A port. `id` and `index` are optional because `normalize_node`
defends against their absence; opaque `data` payloads are modelled as
optional strings. -/
structure Port where
  id : Option String
  node_id : String
  side : Port_side
  kind : Port_kind
  index : Option Int
  data : Option String
  deriving DecidableEq

structure Node where
  id : String
  type : String
  x : ℚ
  y : ℚ
  w : Option ℚ
  h : Option ℚ
  data : Option String
  ports : List Port
  deriving DecidableEq

structure Edge_endpoint where
  node_id : String
  port_id : String
  deriving DecidableEq

structure Edge where
  id : String
  from_ep : Edge_endpoint  -- source field name: `from` (a reserved word here)
  to_ep : Edge_endpoint    -- source field name: `to`
  data : Option String
  deriving DecidableEq

structure Graph where
  nodes : List (String × Node)
  edges : List (String × Edge)
  deriving DecidableEq

/-! ## Identifier generator (src/core/id.ts) -/

/-- The module-level `counters` map, threaded explicitly. -/
def Counters : Type := List (String × Int)

instance : DecidableEq Counters := by
  unfold Counters; infer_instance

/-- Digit characters produced by JavaScript `Number.prototype.toString(36)`. -/
def base36_digit (d : Nat) : Char :=
  if d < 10 then Char.ofNat (48 + d) else Char.ofNat (87 + d)

/-- Base-36 rendering of a natural number, as `toString(36)` produces. -/
def nat_to_base36 (n : Nat) : String :=
  if _h : n < 36 then String.mk [base36_digit n]
  else nat_to_base36 (n / 36) ++ String.mk [base36_digit (n % 36)]
  decreasing_by
    exact Nat.div_lt_self (Nat.lt_of_lt_of_le (by norm_num) (Nat.le_of_not_lt _h)) (by norm_num)

/-- `toString(36)` on an integer (negative values render with a sign). -/
def int_to_base36 (n : Int) : String :=
  if n < 0 then ("-") ++ nat_to_base36 n.natAbs else nat_to_base36 n.toNat

/-- `gen_id(prefix)`: increments the counter and returns the rendered id. -/
def gen_id (c : Counters) (pfx : String) : String × Counters :=
  let counter := (mget c pfx).getD 0 + 1
  (pfx ++ "_" ++ int_to_base36 counter, mset c pfx counter)

/-- `prime_ids(seed)`: raises each counter to `max(current, seed_value)`,
never lowering it (the `value > current` guard in the source). -/
def prime_ids (c : Counters) (seed : List (String × Int)) : Counters :=
  seed.foldl
    (fun acc kv =>
      let current := (mget acc kv.1).getD 0
      if kv.2 > current then mset acc kv.1 kv.2 else acc)
    c

/-! ## Graph model (src/core/graph.ts) -/

structure Connect_input where
  from_ep : Edge_endpoint
  to_ep : Edge_endpoint
  id : Option String
  data : Option String

def create_graph : Graph := ⟨[], []⟩

/-- `normalize_node`'s port pass: assigns missing port ids
(`<node_id>_port_<index>`), stamps the owning node id, defaults the
index positionally, and rejects duplicate resolved ids via `seen`. -/
def normalize_ports (nid : String) : List Port → Nat → List String → Except Err (List Port)
  | [], _, _ => .ok []
  | p :: rest, index, seen =>
      let pid := p.id.getD (nid ++ "_port_" ++ toString index)
      if pid ∈ seen then .error (.duplicate_port pid)
      else do
        let tail ← normalize_ports nid rest (index + 1) (pid :: seen)
        .ok ({ p with
                id := some pid
                node_id := nid
                index := some (p.index.getD (Int.ofNat index)) } :: tail)

def normalize_node (node : Node) : Except Err Node := do
  let ports ← normalize_ports node.id node.ports 0 []
  .ok { node with ports := ports }

/-- `find_port`: first port whose id equals the requested one. -/
def find_port (node : Node) (port_id : String) : Option Port :=
  node.ports.find? (fun p => p.id = some port_id)

/-- `add_node`: duplicate check, normalization, fresh clone with the node set. -/
def add_node (graph : Graph) (node : Node) : Except Err Graph :=
  if mhas graph.nodes node.id then .error (.duplicate_node node.id)
  else do
    let normalized ← normalize_node node
    .ok ⟨mset graph.nodes normalized.id normalized, graph.edges⟩

/-- `update_node`. -/
def update_node (graph : Graph) (node : Node) : Except Err Graph :=
  if mhas graph.nodes node.id then do
    let normalized ← normalize_node node
    .ok ⟨mset graph.nodes normalized.id normalized, graph.edges⟩
  else .error (.unknown_node node.id)

/-- `remove_node`. `none` models the `return graph` same-reference no-op;
the delete-while-iterating loop over the cloned edge map removes exactly
the edges referencing the node. -/
def remove_node (graph : Graph) (node_id : String) : Option Graph :=
  if mhas graph.nodes node_id then
    some ⟨mdel graph.nodes node_id,
      graph.edges.filter
        (fun kv => ¬(kv.2.from_ep.node_id = node_id ∨ kv.2.to_ep.node_id = node_id))⟩
  else none

/-- One step of the `move_nodes` loop: looks the id up in the
accumulating clone and translates it, tracking the `mutated` flag. -/
def move_step (dx dy : ℚ) (acc : List (String × Node) × Bool) (node_id : String) :
    List (String × Node) × Bool :=
  match mget acc.1 node_id with
  | none => acc
  | some existing =>
      (mset acc.1 node_id { existing with x := existing.x + dx, y := existing.y + dy }, true)

/-- `move_nodes`. `none` models both same-reference returns: the
`!dx && !dy` early exit and the `mutated ? next : graph` fall-through. -/
def move_nodes (graph : Graph) (node_ids : List String) (dx dy : ℚ) : Option Graph :=
  if dx = 0 ∧ dy = 0 then none
  else
    let result := node_ids.foldl (move_step dx dy) (graph.nodes, false)
    if result.2 then some ⟨result.1, graph.edges⟩ else none

/-- `set_node_position`: throws on a missing node, `ok none` models the
same-reference return when the position is unchanged. -/
def set_node_position (graph : Graph) (node_id : String) (x y : ℚ) :
    Except Err (Option Graph) :=
  match mget graph.nodes node_id with
  | none => .error (.unknown_node node_id)
  | some existing =>
      if existing.x = x ∧ existing.y = y then .ok none
      else .ok (some ⟨mset graph.nodes node_id { existing with x := x, y := y }, graph.edges⟩)

/-- `connect`: resolves endpoints, checks directions, assigns the edge id
(via `gen_id` when absent — note the generator is consulted only after
all endpoint checks), rejects duplicates, and inserts the edge. The
counter state is returned even when an error is thrown, mirroring the
persistence of the global generator across exceptions. -/
def connect (graph : Graph) (input : Connect_input) (c : Counters) :
    Counters × Except Err Graph :=
  match mget graph.nodes input.from_ep.node_id with
  | none => (c, .error (.unknown_node input.from_ep.node_id))
  | some from_node =>
    match mget graph.nodes input.to_ep.node_id with
    | none => (c, .error (.unknown_node input.to_ep.node_id))
    | some to_node =>
      match find_port from_node input.from_ep.port_id with
      | none => (c, .error (.unknown_port input.from_ep.port_id))
      | some from_port =>
        match find_port to_node input.to_ep.port_id with
        | none => (c, .error (.unknown_port input.to_ep.port_id))
        | some to_port =>
          if from_port.kind = .inp then
            (c, .error (.invalid_port_direction input.from_ep.port_id))
          else if to_port.kind = .out then
            (c, .error (.invalid_port_direction input.to_ep.port_id))
          else
            let idc : String × Counters :=
              match input.id with
              | some given => (given, c)
              | none => gen_id c ("e")
            if mhas graph.edges idc.1 then (idc.2, .error (.duplicate_edge idc.1))
            else
              (idc.2, .ok ⟨graph.nodes,
                mset graph.edges idc.1
                  ⟨idc.1, ⟨input.from_ep.node_id, input.from_ep.port_id⟩,
                    ⟨input.to_ep.node_id, input.to_ep.port_id⟩, input.data⟩⟩)

/-- `remove_edge`. `none` models the same-reference no-op. -/
def remove_edge (graph : Graph) (edge_id : String) : Option Graph :=
  if mhas graph.edges edge_id then some ⟨graph.nodes, mdel graph.edges edge_id⟩
  else none

def disconnect (graph : Graph) (edge_id : String) : Option Graph :=
  remove_edge graph edge_id

/-! ## History (src/core/history.ts): bounded past/present/future snapshots -/

structure History where
  past : List Graph
  present : Graph
  future : List Graph
  limit : Int
  deriving DecidableEq

/-- `create_history(initial, limit = 100)`: throws on `limit <= 0`. -/
def create_history (initial : Graph) (limit : Int) : Except Err History :=
  if limit ≤ 0 then .error .history_configuration
  else .ok ⟨[], initial, [], limit⟩

/-- `push(history, graph)`. The source's `history.present === graph`
reference test is the `Option`: `none` is a push of the present graph
object itself, `some g` a push of a freshly allocated graph. At
capacity (`past.length >= limit`) the oldest past entry is dropped. -/
def hpush (h : History) (g : Option Graph) : History :=
  match g with
  | none => h
  | some graph =>
      let trimmed :=
        if (h.past.length : Int) ≥ h.limit then h.past.drop 1 ++ [h.present]
        else h.past ++ [h.present]
      ⟨trimmed, graph, [], h.limit⟩

/-- `undo(history)`: no-op on an empty past, else the last past snapshot
becomes present and the present is prepended to the future. -/
def hundo (h : History) : History :=
  match h.past.getLast? with
  | none => h
  | some previous => ⟨h.past.dropLast, previous, h.present :: h.future, h.limit⟩

/-- `redo(history)`: no-op on an empty future, else the first future
snapshot becomes present and the present is appended to the past. -/
def hredo (h : History) : History :=
  match h.future with
  | [] => h
  | next :: rest => ⟨h.past ++ [h.present], next, rest, h.limit⟩

def can_undo (h : History) : Bool := h.past.length > 0

def can_redo (h : History) : Bool := h.future.length > 0

/-! ## Commands (src/core/commands.ts) -/

/-- A command, abstracted to the only part the history engine inspects:
the graph its `do` returns. `run g = none` models `do` returning its
input reference unchanged (no mutation); `run g = some g'` models `do`
returning the freshly allocated graph `g'`, which is never
reference-identical to the input. Commands whose `do` throws abort the
whole sequence before touching the history and are outside this type. -/
structure Command where
  run : Graph → Option Graph

structure Command_state where
  history : History
  deriving DecidableEq

def create_command_state (initial : Graph) (limit : Int) : Except Err Command_state :=
  (create_history initial limit).map (fun h => ⟨h⟩)

def get_present_graph (state : Command_state) : Graph :=
  state.history.present

/-- `execute_command`: runs `do` on the present graph and pushes the
result; an unchanged history is returned as the same state. -/
def execute_command (state : Command_state) (command : Command) : Command_state :=
  ⟨hpush state.history (command.run state.history.present)⟩

def undo_command (state : Command_state) : Command_state :=
  ⟨hundo state.history⟩

def redo_command (state : Command_state) : Command_state :=
  ⟨hredo state.history⟩

/-- Executing a command sequence in order. -/
def exec_list (state : Command_state) (cs : List Command) : Command_state :=
  cs.foldl execute_command state

def undo_times : Nat → Command_state → Command_state
  | 0, s => s
  | n + 1, s => undo_times n (undo_command s)

def redo_times : Nat → Command_state → Command_state
  | 0, s => s
  | n + 1, s => redo_times n (redo_command s)

/-- The graph snapshots recorded while executing a command list: one per
command whose `do` returns a fresh graph. -/
def snapshots (g : Graph) : List Command → List Graph
  | [] => []
  | c :: cs =>
      match c.run g with
      | none => snapshots g cs
      | some g' => g' :: snapshots g' cs

/-! ## Serialization (src/core/serialize.ts) -/

structure Serialized_graph where
  nodes : List Node
  edges : List Edge
  deriving DecidableEq

/-- `clone_node`: field-by-field deep copy (ports copied). In the value
semantics of the embedding this is provably the identity. -/
def clone_node (node : Node) : Node :=
  { id := node.id, type := node.type, x := node.x, y := node.y
    w := node.w, h := node.h, data := node.data
    ports := node.ports.map (fun p =>
      { id := p.id, node_id := p.node_id, side := p.side, kind := p.kind
        index := p.index, data := p.data }) }

/-- `clone_edge`: field-by-field deep copy (endpoints copied). -/
def clone_edge (edge : Edge) : Edge :=
  { id := edge.id
    from_ep := { node_id := edge.from_ep.node_id, port_id := edge.from_ep.port_id }
    to_ep := { node_id := edge.to_ep.node_id, port_id := edge.to_ep.port_id }
    data := edge.data }

/-- `serialize_graph`: the map values, in insertion order, deep-copied. -/
def serialize_graph (graph : Graph) : Serialized_graph :=
  ⟨graph.nodes.map (fun kv => clone_node kv.2),
   graph.edges.map (fun kv => clone_edge kv.2)⟩

/-- Base-36 digit value accepted by `parseInt(_, 36)`. -/
def char36_val (ch : Char) : Option Nat :=
  if 48 ≤ ch.toNat ∧ ch.toNat ≤ 57 then some (ch.toNat - 48)
  else if 97 ≤ ch.toNat ∧ ch.toNat ≤ 122 then some (ch.toNat - 87)
  else if 65 ≤ ch.toNat ∧ ch.toNat ≤ 90 then some (ch.toNat - 55)
  else none

def parse36_digits (acc : Nat) : List Char → Nat
  | [] => acc
  | ch :: rest =>
      match char36_val ch with
      | none => acc
      | some d => parse36_digits (acc * 36 + d) rest

/-- JavaScript `parseInt(raw, 36)`: optional leading whitespace and sign,
then the longest base-36 digit prefix; `none` models `NaN`. (Values
beyond 2^53 lose float precision in JavaScript; that rounding is not
modelled — no claim depends on parsed magnitudes.) -/
def parse_int36 (s : String) : Option Int :=
  let cs := s.toList.dropWhile (fun ch => ch = ' ' ∨ ch = '\t' ∨ ch = '\n' ∨ ch = '\r')
  let signed : Bool × List Char :=
    match cs with
    | '-' :: rest => (true, rest)
    | '+' :: rest => (false, rest)
    | rest => (false, rest)
  match signed.2 with
  | [] => none
  | ch :: rest =>
      match char36_val ch with
      | none => none
      | some d =>
          let v : Int := Int.ofNat (parse36_digits d rest)
          some (if signed.1 then -v else v)

/-- `lastIndexOf('_')` over the characters of an id (`none` is JS `-1`). -/
def last_underscore (cs : List Char) : Option Nat :=
  match cs.reverse.indexOf? '_' with
  | none => none
  | some i => some (cs.length - 1 - i)

/-- `track_id(seed, id)`: records the id's base-36 suffix under its
prefix, keeping per-prefix maxima (`!current || value > current`). -/
def track_id (seed : List (String × Int)) (id : String) : List (String × Int) :=
  let cs := id.toList
  match last_underscore cs with
  | none => seed
  | some separator =>
      if separator = 0 ∨ separator = cs.length - 1 then seed
      else
        let pfx := String.mk (cs.take separator)
        let raw := String.mk (cs.drop (separator + 1))
        match parse_int36 raw with
        | none => seed
        | some value =>
            match mget seed pfx with
            | none => mset seed pfx value
            | some current =>
                if current = 0 ∨ value > current then mset seed pfx value else seed

/-- Node-replay loop of `deserialize_graph`: `add_node` per snapshot node. -/
def replay_nodes : List Node → Graph → Except Err Graph
  | [], g => .ok g
  | n :: rest, g =>
      match add_node g (clone_node n) with
      | .error e => .error e
      | .ok g' => replay_nodes rest g'

/-- Edge-replay loop of `deserialize_graph`: `connect` per snapshot edge,
with the original id supplied. -/
def replay_edges : List Edge → Graph → Counters → Counters × Except Err Graph
  | [], g, c => (c, .ok g)
  | e :: rest, g, c =>
      match connect g ⟨⟨e.from_ep.node_id, e.from_ep.port_id⟩,
          ⟨e.to_ep.node_id, e.to_ep.port_id⟩, some e.id, e.data⟩ c with
      | (c', .error err) => (c', .error err)
      | (c', .ok g') => replay_edges rest g' c'

/-- `deserialize_graph`: computes per-prefix suffix maxima over all node
and edge ids, primes the generator, then replays `add_node` and
`connect` against an empty graph. -/
def deserialize_graph (s : Serialized_graph) (c : Counters) :
    Counters × Except Err Graph :=
  let seed := (s.edges.map (fun e => e.id)).foldl track_id
    ((s.nodes.map (fun n => n.id)).foldl track_id [])
  let c1 := if seed = [] then c else prime_ids c seed
  match replay_nodes s.nodes create_graph with
  | .error e => (c1, .error e)
  | .ok g0 => replay_edges s.edges g0 c1

/-- Graphs reachable from the empty graph by successful `add_node` and
`connect` operations (the "valid sequences" of the round-trip law). -/
inductive Reachable : Graph → Prop where
  | empty : Reachable create_graph
  | add {g : Graph} {n : Node} {g' : Graph} :
      Reachable g → add_node g n = .ok g' → Reachable g'
  | conn {g : Graph} {i : Connect_input} {c c' : Counters} {g' : Graph} :
      Reachable g → connect g i c = (c', .ok g') → Reachable g'

/-! ## Edge routing (src/react/edge-routing.ts)

Embedded over `ℚ`; the float square root (`Math.hypot`) is the
parameter `S`. SVG path strings are represented structurally
(`Path_desc`), since only their endpoints and control point carry
content. -/

structure Pt where
  x : ℚ
  y : ℚ
  deriving DecidableEq

structure Edge_anchor where
  position : Pt
  normal : Pt
  deriving DecidableEq

inductive Route_kind where
  | line | quadratic
  deriving DecidableEq

structure Edge_obstacle where
  id : Option String
  x : ℚ
  y : ℚ
  width : ℚ
  height : ℚ
  deriving DecidableEq

structure Edge_route_options where
  curvature : Option ℚ
  min_handle : Option ℚ
  handle_ratio : Option ℚ
  obstacles : Option (List Edge_obstacle)
  obstacle_padding : Option ℚ
  obstacle_samples : Option Nat
  ignore_obstacle_ids : Option (List String)

/-- All-defaults options (the `{}` default argument). -/
def default_route_options : Edge_route_options :=
  ⟨none, none, none, none, none, none, none⟩

/-- The content of the emitted SVG path string:
`M a L b` or `M a Q c b`. -/
inductive Path_desc where
  | line (a b : Pt)
  | quad (a c b : Pt)
  deriving DecidableEq

structure Edge_route_metrics where
  curvature : ℚ
  distance : ℚ
  from_alignment : ℚ
  to_alignment : ℚ
  average_alignment : ℚ
  deriving DecidableEq

structure Edge_route_result where
  kind : Route_kind
  path : Path_desc
  control : Option Pt
  handles : Option (Pt × Pt)
  metrics : Option Edge_route_metrics
  deriving DecidableEq

def DEFAULT_CURVATURE : ℚ := 0.6
def DEFAULT_MIN_HANDLE : ℚ := 40
def DEFAULT_HANDLE_RATIO : ℚ := 0.45
def DEFAULT_OBSTACLE_PADDING : ℚ := 12
def DEFAULT_OBSTACLE_SAMPLES : Nat := 12
def STRAIGHT_ALIGNMENT_THRESHOLD : ℚ := 0.9
def STRAIGHT_DISTANCE_THRESHOLD : ℚ := 32
def STRAIGHT_CURVATURE_THRESHOLD : ℚ := 0.15
def CURVATURE_DISTANCE_RANGE : ℚ := 240
def OBSTACLE_SHIFT_MULTIPLIER : ℚ := 0.65

/-- `Number.EPSILON` is exactly `2⁻⁵²`. -/
def JS_EPSILON : ℚ := 1 / 2 ^ 52

/-- The `(direction, scale)` attempt pairs. -/
def OBSTACLE_SHIFT_ATTEMPTS : List (ℚ × ℚ) :=
  [(1, 1), (-1, 1), (1, 1.5), (-1, 1.5)]

def OBSTACLE_SHIFT_MAX_SCALE : ℚ :=
  (OBSTACLE_SHIFT_ATTEMPTS.map (fun a => |a.2|)).foldl max 0

def OBSTACLE_SHIFT_FALLBACK_MULTIPLIER : ℚ := 3
def OBSTACLE_SHIFT_FALLBACK_STEP : ℚ := 0.5

/-- `Math.hypot(x, y)` (two-argument form). -/
def hypot (S : ℚ → ℚ) (x y : ℚ) : ℚ := S (x * x + y * y)

/-- `normalize`: the `!length` guard; over exact rationals only `0` is falsy. -/
def vnormalize (S : ℚ → ℚ) (v : Pt) : Pt :=
  let length := hypot S v.x v.y
  if length = 0 then ⟨0, 0⟩ else ⟨v.x / length, v.y / length⟩

def vdot (a b : Pt) : ℚ := a.x * b.x + a.y * b.y

/-- `clamp01` (the `Number.isFinite` guard is unreachable over `ℚ`). -/
def clamp01 (value : ℚ) : ℚ := min 1 (max 0 value)

def compute_handles (fa ta : Edge_anchor) (from_normal to_normal : Pt)
    (distance curvature min_handle handle_ratio : ℚ) : Pt × Pt :=
  let handle_length := max min_handle (distance * handle_ratio * curvature)
  (⟨fa.position.x + from_normal.x * handle_length,
     fa.position.y + from_normal.y * handle_length⟩,
   ⟨ta.position.x + to_normal.x * handle_length,
     ta.position.y + to_normal.y * handle_length⟩)

def compute_control (f t : Pt) : Pt := ⟨(f.x + t.x) / 2, (f.y + t.y) / 2⟩

def shift_handles (handles : Pt × Pt) (dir : Pt) (offset : ℚ) : Pt × Pt :=
  (⟨handles.1.x + dir.x * offset, handles.1.y + dir.y * offset⟩,
   ⟨handles.2.x + dir.x * offset, handles.2.y + dir.y * offset⟩)

def expand_obstacles (obstacles : List Edge_obstacle) (padding : ℚ) : List Edge_obstacle :=
  if padding ≤ 0 then obstacles
  else obstacles.map (fun ob =>
    { ob with
        x := ob.x - padding
        y := ob.y - padding
        width := ob.width + padding * 2
        height := ob.height + padding * 2 })

def point_in_rect (point : Pt) (rect : Edge_obstacle) : Bool :=
  decide (rect.x ≤ point.x ∧ point.x ≤ rect.x + rect.width ∧
    rect.y ≤ point.y ∧ point.y ≤ rect.y + rect.height)

def tri_direction (a b c : Pt) : ℚ :=
  (b.x - a.x) * (c.y - a.y) - (b.y - a.y) * (c.x - a.x)

def on_segment (a b c : Pt) : Bool :=
  decide (min a.x b.x ≤ c.x ∧ c.x ≤ max a.x b.x ∧
    min a.y b.y ≤ c.y ∧ c.y ≤ max a.y b.y)

def segments_intersect (a1 a2 b1 b2 : Pt) : Bool :=
  let d1 := tri_direction a1 a2 b1
  let d2 := tri_direction a1 a2 b2
  let d3 := tri_direction b1 b2 a1
  let d4 := tri_direction b1 b2 a2
  if d1 = 0 ∧ on_segment a1 a2 b1 then true
  else if d2 = 0 ∧ on_segment a1 a2 b2 then true
  else if d3 = 0 ∧ on_segment b1 b2 a1 then true
  else if d4 = 0 ∧ on_segment b1 b2 a2 then true
  else decide ((d1 > 0 ∧ d2 < 0 ∧ d3 < 0 ∧ d4 > 0) ∨ (d1 < 0 ∧ d2 > 0 ∧ d3 > 0 ∧ d4 < 0))

def segment_intersects_rect (f t : Pt) (rect : Edge_obstacle) : Bool :=
  if point_in_rect f rect ∨ point_in_rect t rect then true
  else
    let p0 : Pt := ⟨rect.x, rect.y⟩
    let p1 : Pt := ⟨rect.x + rect.width, rect.y⟩
    let p2 : Pt := ⟨rect.x + rect.width, rect.y + rect.height⟩
    let p3 : Pt := ⟨rect.x, rect.y + rect.height⟩
    segments_intersect f t p0 p1 || segments_intersect f t p1 p2 ||
      segments_intersect f t p2 p3 || segments_intersect f t p3 p0

def line_hits_obstacle (f t : Pt) (obstacles : List Edge_obstacle)
    (allow_from_inside allow_to_inside : Bool) : Bool :=
  obstacles.any (fun ob =>
    ((point_in_rect f ob && !allow_from_inside) ||
      (point_in_rect t ob && !allow_to_inside)) ||
      segment_intersects_rect f t ob)

def resolve_quadratic_point (f c t : Pt) (tq : ℚ) : Pt :=
  let one_minus_t := 1 - tq
  ⟨one_minus_t * one_minus_t * f.x + 2 * one_minus_t * tq * c.x + tq * tq * t.x,
   one_minus_t * one_minus_t * f.y + 2 * one_minus_t * tq * c.y + tq * tq * t.y⟩

def sample_quadratic (f c t : Pt) (samples : Nat) : List Pt :=
  (List.range (samples + 1)).map
    (fun step => resolve_quadratic_point f c t ((step : ℚ) / (samples : ℚ)))

/-- `curve_hits_obstacle`. The source's `Set` membership tests compare
obstacle objects by reference; value equality coincides because the
start/end sets are filters of the same obstacle list by a predicate
invariant under value equality. -/
def curve_hits_obstacle (f c t : Pt) (obstacles : List Edge_obstacle)
    (samples : Nat) : Bool :=
  let points := sample_quadratic f c t (max 3 samples)
  let start_obstacles := obstacles.filter (fun ob => point_in_rect f ob)
  let end_obstacles := obstacles.filter (fun ob => point_in_rect t ob)
  let memberships := points.map (fun p => obstacles.filter (fun ob => point_in_rect p ob))
  if ((memberships.drop 1).dropLast).any (fun ms => !ms.isEmpty) then true
  else
    let pmz := points.zip memberships
    (pmz.zip (pmz.drop 1)).any (fun pr =>
      let allow_from := pr.1.2.any (fun ob =>
        start_obstacles.contains ob || end_obstacles.contains ob)
      let allow_to := pr.2.2.any (fun ob =>
        start_obstacles.contains ob || end_obstacles.contains ob)
      line_hits_obstacle pr.1.1 pr.2.1 obstacles allow_from allow_to)

def filter_endpoint_obstacles (obstacles : List Edge_obstacle) (f t : Pt)
    (ignore_ids : Option (List String)) : List Edge_obstacle :=
  let ig := ignore_ids.getD []
  if ig.isEmpty then
    obstacles.filter (fun ob => !point_in_rect f ob && !point_in_rect t ob)
  else
    obstacles.filter (fun ob =>
      !(match ob.id with
        | some i => ig.contains i
        | none => false))

/-- `Partial<Edge_route_metrics>`. -/
structure Metrics_update where
  curvature : Option ℚ
  distance : Option ℚ
  from_alignment : Option ℚ
  to_alignment : Option ℚ
  average_alignment : Option ℚ

/-- The only update shape the source constructs: `{ curvature }`. -/
def curv_update (c : ℚ) : Metrics_update := ⟨some c, none, none, none, none⟩

def merge_route_metrics (source : Option Edge_route_metrics)
    (updates : Metrics_update) (fallback_distance : ℚ) : Edge_route_metrics :=
  { curvature := updates.curvature.getD ((source.map (fun m => m.curvature)).getD 0)
    distance := updates.distance.getD ((source.map (fun m => m.distance)).getD fallback_distance)
    from_alignment := updates.from_alignment.getD ((source.map (fun m => m.from_alignment)).getD 0)
    to_alignment := updates.to_alignment.getD ((source.map (fun m => m.to_alignment)).getD 0)
    average_alignment := updates.average_alignment.getD ((source.map (fun m => m.average_alignment)).getD 0) }

structure Obstacle_context where
  from_a : Edge_anchor
  to_a : Edge_anchor
  route : Edge_route_result
  distance : ℚ
  unit : Pt
  from_normal : Pt
  to_normal : Pt
  min_handle : ℚ
  handle_ratio : ℚ
  resolved_curvature : ℚ
  obstacles : List Edge_obstacle
  obstacle_padding : ℚ
  obstacle_samples : Nat
  ignore_ids : Option (List String)

/-- The bounded attempt loop shared by `reroute_line` and
`adjust_quadratic`: first obstacle-free candidate wins. -/
def attempts_scan (cand : ℚ → Edge_route_result) (hits : ℚ → Bool) :
    List (ℚ × ℚ) → Option Edge_route_result
  | [] => none
  | a :: rest =>
      let signed := a.2 * a.1
      if hits signed then attempts_scan cand hits rest
      else some (cand signed)

/-- The widening fallback loop shared by `reroute_line` and
`adjust_quadratic`: first obstacle-free candidate wins; otherwise the
accumulator keeps the candidate with the strictly largest perpendicular
projection, seeded with the original route at projection `0`. -/
def fallback_scan (cand : ℚ → Edge_route_result) (hits : ℚ → Bool) (proj : ℚ → ℚ) :
    List ℚ → Edge_route_result × ℚ → Edge_route_result
  | [], acc => acc.1
  | signed :: rest, acc =>
      if signed = 0 then fallback_scan cand hits proj rest acc
      else if hits signed then
        (if proj signed > acc.2 then
          fallback_scan cand hits proj rest (cand signed, proj signed)
        else fallback_scan cand hits proj rest acc)
      else cand signed

/-- The signed scales visited by the fallback `for` loops: scale runs
from `MAX_SCALE` to `MAX_SCALE * 3` in steps of `0.5` (all exact in
binary64, so the float loop visits exactly these values), for direction
`1` then `-1`. -/
def fallback_signed_scales : List ℚ :=
  let scales := (List.range 7).map
    (fun i => OBSTACLE_SHIFT_MAX_SCALE + (i : ℚ) * OBSTACLE_SHIFT_FALLBACK_STEP)
  scales ++ scales.map (fun s => -s)

def rl_effective (ctx : Obstacle_context) : List Edge_obstacle :=
  filter_endpoint_obstacles (expand_obstacles ctx.obstacles ctx.obstacle_padding)
    ctx.from_a.position ctx.to_a.position ctx.ignore_ids

def rl_detour_curvature (ctx : Obstacle_context) : ℚ :=
  max ctx.resolved_curvature 0.45

def rl_handles (S : ℚ → ℚ) (ctx : Obstacle_context) : Pt × Pt :=
  compute_handles ctx.from_a ctx.to_a (vnormalize S ctx.from_a.normal)
    (vnormalize S ctx.to_a.normal) ctx.distance (rl_detour_curvature ctx)
    ctx.min_handle ctx.handle_ratio

def rl_perpendicular (ctx : Obstacle_context) : Pt := ⟨-ctx.unit.y, ctx.unit.x⟩

def rl_detour_base (ctx : Obstacle_context) : ℚ :=
  max (max (ctx.distance * OBSTACLE_SHIFT_MULTIPLIER) ctx.min_handle)
    (ctx.obstacle_padding * 2)

/-- Control point of the shifted candidate at a signed scale. -/
def rl_control (S : ℚ → ℚ) (ctx : Obstacle_context) (signed : ℚ) : Pt :=
  compute_control
    (shift_handles (rl_handles S ctx) (rl_perpendicular ctx) (rl_detour_base ctx * signed)).1
    (shift_handles (rl_handles S ctx) (rl_perpendicular ctx) (rl_detour_base ctx * signed)).2

/-- The quadratic candidate emitted for a signed scale (identical shape
in the attempt and fallback loops). -/
def rl_candidate (S : ℚ → ℚ) (ctx : Obstacle_context) (signed : ℚ) : Edge_route_result :=
  { kind := .quadratic
    path := .quad ctx.from_a.position (rl_control S ctx signed) ctx.to_a.position
    control := some (rl_control S ctx signed)
    handles := some (shift_handles (rl_handles S ctx) (rl_perpendicular ctx)
      (rl_detour_base ctx * signed))
    metrics := some (merge_route_metrics ctx.route.metrics
      (curv_update (rl_detour_curvature ctx)) ctx.distance) }

def rl_candidate_hits (S : ℚ → ℚ) (ctx : Obstacle_context) (signed : ℚ) : Bool :=
  curve_hits_obstacle ctx.from_a.position (rl_control S ctx signed)
    ctx.to_a.position (rl_effective ctx) ctx.obstacle_samples

def rl_base_control (S : ℚ → ℚ) (ctx : Obstacle_context) : Pt :=
  compute_control (rl_handles S ctx).1 (rl_handles S ctx).2

/-- Perpendicular displacement of a candidate control point from the
unshifted base control point. -/
def rl_projection (S : ℚ → ℚ) (ctx : Obstacle_context) (signed : ℚ) : ℚ :=
  |(rl_perpendicular ctx).x * ((rl_control S ctx signed).x - (rl_base_control S ctx).x) +
    (rl_perpendicular ctx).y * ((rl_control S ctx signed).y - (rl_base_control S ctx).y)|

def reroute_line (S : ℚ → ℚ) (ctx : Obstacle_context) : Edge_route_result :=
  if ctx.obstacles.isEmpty then ctx.route
  else if !line_hits_obstacle ctx.from_a.position ctx.to_a.position
      (rl_effective ctx) false false then ctx.route
  else
    match attempts_scan (rl_candidate S ctx) (rl_candidate_hits S ctx)
        OBSTACLE_SHIFT_ATTEMPTS with
    | some r => r
    | none =>
        fallback_scan (rl_candidate S ctx) (rl_candidate_hits S ctx)
          (rl_projection S ctx) fallback_signed_scales (ctx.route, 0)

def aq_shift_base (ctx : Obstacle_context) : ℚ :=
  max (max ctx.min_handle (ctx.distance * 0.35)) (ctx.obstacle_padding * 2)

def aq_handles (ctx : Obstacle_context) (control : Pt) : Pt × Pt :=
  ctx.route.handles.getD (control, control)

def aq_control (ctx : Obstacle_context) (control : Pt) (signed : ℚ) : Pt :=
  compute_control
    (shift_handles (aq_handles ctx control) (rl_perpendicular ctx) (aq_shift_base ctx * signed)).1
    (shift_handles (aq_handles ctx control) (rl_perpendicular ctx) (aq_shift_base ctx * signed)).2

def aq_candidate (ctx : Obstacle_context) (control : Pt) (signed : ℚ) : Edge_route_result :=
  { kind := .quadratic
    path := .quad ctx.from_a.position (aq_control ctx control signed) ctx.to_a.position
    control := some (aq_control ctx control signed)
    handles := some (shift_handles (aq_handles ctx control) (rl_perpendicular ctx)
      (aq_shift_base ctx * signed))
    metrics := some (merge_route_metrics ctx.route.metrics
      (curv_update (max ((ctx.route.metrics.map (fun m => m.curvature)).getD 0)
        ctx.resolved_curvature)) ctx.distance) }

def aq_candidate_hits (ctx : Obstacle_context) (control : Pt) (signed : ℚ) : Bool :=
  curve_hits_obstacle ctx.from_a.position (aq_control ctx control signed)
    ctx.to_a.position (rl_effective ctx) ctx.obstacle_samples

/-- Perpendicular displacement used by `adjust_quadratic`'s fallback,
measured from the route's own control point. -/
def aq_projection (ctx : Obstacle_context) (control : Pt) (signed : ℚ) : ℚ :=
  |(rl_perpendicular ctx).x * ((aq_control ctx control signed).x - control.x) +
    (rl_perpendicular ctx).y * ((aq_control ctx control signed).y - control.y)|

def adjust_quadratic (ctx : Obstacle_context) : Edge_route_result :=
  match ctx.route.control with
  | none => ctx.route
  | some control =>
      let effective := rl_effective ctx
      let base_intersects :=
        line_hits_obstacle ctx.from_a.position ctx.to_a.position effective false false
      if !curve_hits_obstacle ctx.from_a.position control ctx.to_a.position
          effective ctx.obstacle_samples && !base_intersects then ctx.route
      else
        match attempts_scan (aq_candidate ctx control) (aq_candidate_hits ctx control)
            OBSTACLE_SHIFT_ATTEMPTS with
        | some r => r
        | none =>
            fallback_scan (aq_candidate ctx control) (aq_candidate_hits ctx control)
              (aq_projection ctx control) fallback_signed_scales (ctx.route, 0)

def avoid_obstacles (S : ℚ → ℚ) (ctx : Obstacle_context) : Edge_route_result :=
  if ctx.route.kind = .line then reroute_line S ctx
  else if ctx.route.kind = .quadratic ∧ ctx.route.control.isSome then
    adjust_quadratic ctx
  else ctx.route

def route_edge (S : ℚ → ℚ) (fa ta : Edge_anchor)
    (options : Edge_route_options) : Edge_route_result :=
  let base_curvature := clamp01 (options.curvature.getD DEFAULT_CURVATURE)
  let min_handle := options.min_handle.getD DEFAULT_MIN_HANDLE
  let handle_ratio := options.handle_ratio.getD DEFAULT_HANDLE_RATIO
  let delta : Pt := ⟨ta.position.x - fa.position.x, ta.position.y - fa.position.y⟩
  let distance := hypot S delta.x delta.y
  if distance = 0 then
    { kind := .line
      path := .line fa.position ta.position
      control := none
      handles := none
      metrics := some ⟨0, distance, 0, 0, 0⟩ }
  else
    let unit : Pt := ⟨delta.x / distance, delta.y / distance⟩
    let from_normal := vnormalize S fa.normal
    let to_normal := vnormalize S ta.normal
    let from_alignment := vdot from_normal unit
    let to_alignment := -vdot to_normal unit
    let average_alignment := clamp01 ((from_alignment + to_alignment) / 2)
    let misalignment := 1 - average_alignment
    let distance_factor :=
      clamp01 ((distance - STRAIGHT_DISTANCE_THRESHOLD) / CURVATURE_DISTANCE_RANGE)
    let resolved_curvature := clamp01
      (base_curvature * (0.35 + misalignment * 0.65) +
        misalignment * 0.45 + distance_factor * 0.2)
    let metrics : Edge_route_metrics :=
      ⟨resolved_curvature, distance, from_alignment, to_alignment, average_alignment⟩
    let route : Edge_route_result :=
      if resolved_curvature ≤ JS_EPSILON ∨
          (distance ≤ STRAIGHT_DISTANCE_THRESHOLD ∧
            from_alignment ≥ STRAIGHT_ALIGNMENT_THRESHOLD ∧
            to_alignment ≥ STRAIGHT_ALIGNMENT_THRESHOLD) ∨
          (average_alignment ≥ STRAIGHT_ALIGNMENT_THRESHOLD ∧
            resolved_curvature < STRAIGHT_CURVATURE_THRESHOLD) then
        { kind := .line
          path := .line fa.position ta.position
          control := none
          handles := none
          metrics := some { metrics with curvature := 0 } }
      else
        let handles := compute_handles fa ta from_normal to_normal distance
          resolved_curvature min_handle handle_ratio
        let control := compute_control handles.1 handles.2
        { kind := .quadratic
          path := .quad fa.position control ta.position
          control := some control
          handles := some handles
          metrics := some metrics }
    match options.obstacles with
    | none => route
    | some obs =>
        if obs.isEmpty then route
        else
          -- the source's post-call reassignment of `resolved_curvature`
          -- is dead (the function returns immediately afterwards)
          avoid_obstacles S
            { from_a := fa
              to_a := ta
              route := route
              distance := distance
              unit := unit
              from_normal := from_normal
              to_normal := to_normal
              min_handle := min_handle
              handle_ratio := handle_ratio
              resolved_curvature := resolved_curvature
              obstacles := obs
              obstacle_padding := options.obstacle_padding.getD DEFAULT_OBSTACLE_PADDING
              obstacle_samples := options.obstacle_samples.getD DEFAULT_OBSTACLE_SAMPLES
              ignore_ids := options.ignore_obstacle_ids }

/-- An edge whose endpoints resolve in a node map with the correct port
directions — exactly the facts `connect` establishes before inserting. -/
def edge_ok (nodes : List (String × Node)) (e : Edge) : Prop :=
  ∃ fn fp tn tp,
    mget nodes e.from_ep.node_id = some fn ∧
    find_port fn e.from_ep.port_id = some fp ∧
    ¬fp.kind = .inp ∧
    mget nodes e.to_ep.node_id = some tn ∧
    find_port tn e.to_ep.port_id = some tp ∧
    ¬tp.kind = .out

/-- Well-formedness maintained by the graph operations: map keys match
the stored ids and are unique, stored nodes are fixed points of
normalization, and stored edges resolve with correct directions. -/
def graph_wf (g : Graph) : Prop :=
  (∀ kn ∈ g.nodes, kn.1 = kn.2.id ∧ normalize_node kn.2 = .ok kn.2) ∧
  (g.nodes.map Prod.fst).Nodup ∧
  (∀ ke ∈ g.edges, ke.1 = ke.2.id ∧ edge_ok g.nodes ke.2) ∧
  (g.edges.map Prod.fst).Nodup

/-! ## History operation sequences (for the capacity invariant) -/

/-- One history operation: a push (`none` = push of the present graph
object itself, i.e. the reference no-op; `some g` = push of a fresh
graph), an undo, or a redo. -/
inductive HOp where
  | push_op (g : Option Graph)
  | undo_op
  | redo_op

def apply_op (h : History) : HOp → History
  | .push_op g => hpush h g
  | .undo_op => hundo h
  | .redo_op => hredo h

def apply_ops (h : History) (ops : List HOp) : History :=
  ops.foldl apply_op h

/-- The history invariant: a positive limit bounding the total number of
stored past and future snapshots. -/
def history_inv (h : History) : Prop :=
  0 < h.limit ∧ (h.past.length : Int) + (h.future.length : Int) ≤ h.limit

/-! ## Result discriminators and concrete fixtures -/

/-- Does a `connect` result carry an `InvalidPortDirectionError`? -/
def is_invalid_direction_error : Except Err Graph → Bool
  | .error (.invalid_port_direction _) => true
  | _ => false

/-- The `connect` failures thrown before `gen_id` is consulted: missing
node, missing port, or wrong port direction. -/
def consumes_no_id_error : Err → Bool
  | .unknown_node _ => true
  | .unknown_port _ => true
  | .invalid_port_direction _ => true
  | _ => false

/-- Fixture: an `out` port on node `a`. -/
def port_out_a : Port := ⟨some ("a_out"), "a", .right, .out, some 0, none⟩

/-- Fixture: an `in` port on node `b`. -/
def port_in_b : Port := ⟨some ("b_in"), "b", .left, .inp, some 0, none⟩

def node_a : Node := ⟨"a", "t", 0, 0, none, none, none, [port_out_a]⟩

def node_b : Node := ⟨"b", "t", 10, 0, none, none, none, [port_in_b]⟩

def edge_ab : Edge := ⟨"e_1", ⟨"a", "a_out"⟩, ⟨"b", "b_in"⟩, none⟩

/-- Fixture graph: nodes `a`, `b` and the edge `a.a_out → b.b_in`
(exactly what `add_node`, `add_node`, `connect` build). -/
def gex : Graph := ⟨[("a", node_a), ("b", node_b)], [("e_1", edge_ab)]⟩

/-- Fixture: the graph after adding node `a` to the empty graph. -/
def g_a : Graph := ⟨[("a", node_a)], []⟩

/-- Fixture: the graph after adding nodes `a` and `b`. -/
def g_ab : Graph := ⟨[("a", node_a), ("b", node_b)], []⟩

/-- Fixture: a wrong-direction connect request (`from` is an `in` port). -/
def bad_dir_input : Connect_input := ⟨⟨"b", "b_in"⟩, ⟨"a", "a_out"⟩, none, none⟩

/-- Fixture: a connect request naming a missing node, with no id given. -/
def missing_node_input : Connect_input := ⟨⟨"nope", "p"⟩, ⟨"a", "a_out"⟩, none, none⟩

/-- Fixture counters with a consumed `e` id. -/
def ctr_ex : Counters := [("e", 7)]

/-- Fixture: a one-node graph distinct from the empty graph. -/
def g_snap : Graph := ⟨[("n", ⟨"n", "t", 1, 1, none, none, none, []⟩)], []⟩

/-- Fixture: a command whose `do` always returns a fresh graph. -/
def cmd_to_snap : Command := ⟨fun _ => some g_snap⟩

/-- Fixture: a command whose `do` returns its input reference unchanged. -/
def cmd_noop : Command := ⟨fun _ => none⟩

/-- Fixture: a fresh default-limit command state on the empty graph. -/
def fresh_cs : Command_state := ⟨⟨[], create_graph, [], 100⟩⟩

/-- Fixture: the state reached by executing one mutating command on a
fresh history and undoing it — its redo stack is non-empty. -/
def cs_after_undo : Command_state :=
  undo_command (execute_command fresh_cs cmd_to_snap)

/-- Fixture: a limit-2 history and an operation list exercising capacity. -/
def h2_ex : History := ⟨[], gex, [], 2⟩

def ops_ex : List HOp :=
  [.push_op (some g_snap), .push_op (some gex), .push_op (some g_snap),
    .push_op none, .undo_op, .redo_op, .push_op (some gex)]

/-- Fixture: a history exactly at capacity. -/
def hcap_ex : History := ⟨[g_snap, gex], create_graph, [], 2⟩

/-- All signed scales tried by `reroute_line`, in order: the four
bounded attempts, then the fallback scan. -/
def rl_all_signed_scales : List ℚ :=
  OBSTACLE_SHIFT_ATTEMPTS.map (fun a => a.2 * a.1) ++ fallback_signed_scales

/-- Fixture: a square-root stand-in agreeing with `Math.sqrt` at the
perfect squares the routing scenario evaluates. -/
def sqrt_stub : ℚ → ℚ := fun q => if q = 576 then 24 else if q = 1 then 1 else 0

/-- Fixture: an obstacle covering the whole scene (its id is kept by
passing an unrelated ignore list, which disables endpoint filtering). -/
def huge_obstacle : Edge_obstacle := ⟨some ("h"), -1000000, -1000000, 2000000, 2000000⟩

/-- Fixture: a routing context in which every avoidance candidate is
blocked by `huge_obstacle`. Degenerate zero-length normals are used. -/
def ctx_blocked : Obstacle_context :=
  { from_a := ⟨⟨0, 0⟩, ⟨0, 0⟩⟩
    to_a := ⟨⟨200, 0⟩, ⟨0, 0⟩⟩
    route := ⟨.line, .line ⟨0, 0⟩ ⟨200, 0⟩, none, none, none⟩
    distance := 200
    unit := ⟨1, 0⟩
    from_normal := ⟨0, 0⟩
    to_normal := ⟨0, 0⟩
    min_handle := 40
    handle_ratio := 0.45
    resolved_curvature := 0.6
    obstacles := [huge_obstacle]
    obstacle_padding := 12
    obstacle_samples := 3
    ignore_ids := some [("zz")] }

/-! ## Claim theorems -/

/-- **C4.** For every graph `g` and node id present in `g`,
`remove_node(g, node_id)` removes that node and cascades deletion of
every edge whose `from` or `to` endpoint references it: no edge in the
resulting graph has `from.node_id` or `to.node_id` equal to the removed
id (and edges referencing neither endpoint are kept); if the id is
absent, `remove_node` returns the same graph reference (modelled by
`none`). -/
theorem remove_node_cascade (g : Graph) (nid : String) :
    (mhas g.nodes nid = false → remove_node g nid = none) ∧
    (mhas g.nodes nid = true →
      (remove_node g nid).isSome = true ∧
      mhas ((remove_node g nid).getD g).nodes nid = false ∧
      ((remove_node g nid).getD g).edges.all
        (fun ke => !(ke.2.from_ep.node_id == nid) && !(ke.2.to_ep.node_id == nid)) = true ∧
      g.edges.all (fun ke =>
        (ke.2.from_ep.node_id == nid) || (ke.2.to_ep.node_id == nid) ||
          ((remove_node g nid).getD g).edges.contains ke) = true) := by
  constructor
  · intro h
    simp [remove_node, h]
  · intro h
    have hd : remove_node g nid = some ⟨mdel g.nodes nid,
        g.edges.filter
          (fun kv => ¬(kv.2.from_ep.node_id = nid ∨ kv.2.to_ep.node_id = nid))⟩ := by
      simp [remove_node, h]
    refine ⟨by simp [hd], ?_, ?_, ?_⟩
    · rw [hd]
      simp [mhas, mdel, List.any_eq_true, List.mem_filter]
    · rw [hd]
      simp only [Option.getD_some, List.all_eq_true, List.mem_filter]
      intro ke hke
      obtain ⟨-, hn⟩ := hke
      simp only [decide_eq_true_eq] at hn
      push_neg at hn
      simp [hn.1, hn.2]
    · rw [hd]
      simp only [Option.getD_some, List.all_eq_true]
      intro ke hke
      by_cases hf : ke.2.from_ep.node_id = nid
      · simp [hf]
      · by_cases ht : ke.2.to_ep.node_id = nid
        · simp [ht]
        · have hmem : ke ∈ g.edges.filter
              (fun kv => ¬(kv.2.from_ep.node_id = nid ∨ kv.2.to_ep.node_id = nid)) := by
            simp only [List.mem_filter, decide_eq_true_eq]
            exact ⟨hke, by tauto⟩
          simp [hf, ht, List.contains, List.elem_iff.mpr hmem, hke]

/-- Witness for C4 at the fixture graph: absent id is a reference no-op,
present id `a` yields a changed graph. -/
theorem remove_node_cascade_witness :
    (remove_node gex ("zzz") = none) ∧ (remove_node gex ("a")).isSome = true :=
  ⟨(remove_node_cascade gex ("zzz")).1 (by decide),
    ((remove_node_cascade gex ("a")).2 (by decide)).1⟩

/-- **C5.** For every graph and every pair of resolvable node/port
endpoints, `connect` fails with `InvalidPortDirectionError` whenever the
`from` port's kind is not `out` or the `to` port's kind is not `in`
(equivalently, `from` is an `in` port or `to` is an `out` port, the
kinds being two-valued). The embedding returns no graph on error, so the
input graph is untouched. -/
theorem connect_invalid_direction (g : Graph) (input : Connect_input)
    (c : Counters) (fn tn : Node) (fp tp : Port)
    (hfn : mget g.nodes input.from_ep.node_id = some fn)
    (htn : mget g.nodes input.to_ep.node_id = some tn)
    (hfp : find_port fn input.from_ep.port_id = some fp)
    (htp : find_port tn input.to_ep.port_id = some tp)
    (hdir : fp.kind = .inp ∨ tp.kind = .out) :
    is_invalid_direction_error (connect g input c).2 = true := by
  unfold connect
  simp only [hfn, htn, hfp, htp]
  rcases hdir with h | h
  · simp [h, is_invalid_direction_error]
  · by_cases hf : fp.kind = .inp
    · simp [hf, is_invalid_direction_error]
    · simp [hf, h, is_invalid_direction_error]

/-- Witness for C5: connecting out of the `in` port `b_in` fails with the
direction error. -/
theorem connect_invalid_direction_witness :
    is_invalid_direction_error (connect gex bad_dir_input []).2 = true :=
  connect_invalid_direction gex bad_dir_input [] node_b node_a port_in_b port_out_a
    (by decide) (by decide) (by decide) (by decide) (Or.inl (by decide))

/-- **C6.** Identity no-ops return the same graph reference (`none`, or
`ok none` for the throwing `set_node_position`): `move_nodes` with a
zero delta for any id list, `remove_node` of an absent id, and
`set_node_position` to the position the node already has. -/
theorem identity_noops :
    (∀ (g : Graph) (ids : List String), move_nodes g ids 0 0 = none) ∧
    (∀ (g : Graph) (nid : String), mhas g.nodes nid = false →
      remove_node g nid = none) ∧
    (∀ (g : Graph) (nid : String) (n : Node) (x y : ℚ),
      mget g.nodes nid = some n → n.x = x → n.y = y →
      set_node_position g nid x y = .ok none) := by
  refine ⟨?_, ?_, ?_⟩
  · intro g ids
    simp [move_nodes]
  · intro g nid h
    simp [remove_node, h]
  · intro g nid n x y hm hx hy
    simp [set_node_position, hm, hx, hy]

/-- Witness for C6 at the fixture graph. -/
theorem identity_noops_witness :
    move_nodes gex [("a"), ("b")] 0 0 = none ∧
    remove_node gex ("zz") = none ∧
    set_node_position gex ("a") 0 0 = .ok none :=
  ⟨identity_noops.1 gex [("a"), ("b")],
    identity_noops.2.1 gex ("zz") (by decide),
    identity_noops.2.2 gex ("a") node_a 0 0 (by decide) (by decide) (by decide)⟩

/-- **C10.** A `connect` call without a supplied id that fails because a
referenced node or port is missing, or because a port has the wrong
direction, leaves the identifier generator's counters unchanged:
`gen_id` is consulted only after both endpoints resolve and the
direction checks pass. -/
theorem connect_error_preserves_counters (g : Graph) (input : Connect_input)
    (c : Counters) (e : Err)
    (hid : input.id = none)
    (herr : (connect g input c).2 = .error e)
    (hkind : consumes_no_id_error e = true) :
    (connect g input c).1 = c := by
  unfold connect at herr ⊢
  cases hfn : mget g.nodes input.from_ep.node_id with
  | none => simp [hfn]
  | some fn =>
    simp only [hfn] at herr ⊢
    cases htn : mget g.nodes input.to_ep.node_id with
    | none => simp [htn]
    | some tn =>
      simp only [htn] at herr ⊢
      cases hfp : find_port fn input.from_ep.port_id with
      | none => simp [hfp]
      | some fp =>
        simp only [hfp] at herr ⊢
        cases htp : find_port tn input.to_ep.port_id with
        | none => simp [htp]
        | some tp =>
          simp only [htp] at herr ⊢
          by_cases hk1 : fp.kind = .inp
          · simp [hk1]
          · by_cases hk2 : tp.kind = .out
            · simp [hk1, hk2]
            · exfalso
              rw [hid] at herr
              simp only [hk1, hk2, if_false] at herr
              by_cases hdup : mhas g.edges (gen_id c ("e")).1 = true
              · simp only [hdup, if_true] at herr
                cases herr
                simp [consumes_no_id_error] at hkind
              · simp [hdup] at herr

/-- Witness for C10: a connect to a missing node with counters `ctr_ex`
leaves them untouched. -/
theorem connect_error_preserves_counters_witness :
    (connect gex missing_node_input ctr_ex).1 = ctr_ex :=
  connect_error_preserves_counters gex missing_node_input ctr_ex
    (.unknown_node ("nope")) rfl (by decide) (by decide)

/-- **C3 counterexample.** In the state reached after one `undo` the redo
stack is non-empty, yet executing a command whose `do` returns the graph
unchanged leaves the redo stack intact: `push` records nothing when the
present graph reference is returned, so the original claim fails for
no-op commands. -/
theorem execute_noop_keeps_redo :
    cs_after_undo.history.future ≠ [] ∧
    (execute_command cs_after_undo cmd_noop).history.future ≠ [] := by
  exact ⟨by decide, by decide⟩

/-- **C3 (amended).** For every history state, executing a command whose
`do` returns a changed (freshly allocated) graph empties the redo
stack; in particular this holds after at least one undo, when the redo
stack is non-empty. -/
theorem execute_mutating_clears_redo (s : Command_state) (c : Command) (g : Graph)
    (_hne : s.history.future ≠ [])
    (hrun : c.run s.history.present = some g) :
    (execute_command s c).history.future = [] := by
  simp [execute_command, hpush, hrun]

/-- Witness for the amended C3 at the post-undo fixture state. -/
theorem execute_mutating_clears_redo_witness :
    (execute_command cs_after_undo cmd_to_snap).history.future = [] :=
  execute_mutating_clears_redo cs_after_undo cmd_to_snap g_snap (by decide) (by decide)

/-- Each history operation preserves the history invariant and the limit. -/
theorem apply_op_inv (h : History) (op : HOp) (hi : history_inv h) :
    history_inv (apply_op h op) ∧ (apply_op h op).limit = h.limit := by
  obtain ⟨hl, hs⟩ := hi
  cases op with
  | push_op g =>
    cases g with
    | none => exact ⟨⟨hl, hs⟩, rfl⟩
    | some graph =>
      refine ⟨⟨hl, ?_⟩, rfl⟩
      simp only [apply_op, hpush]
      by_cases hc : (h.past.length : Int) ≥ h.limit
      · simp only [hc, if_true, List.length_append, List.length_drop,
          List.length_nil, List.length_cons]
        push_cast
        omega
      · simp only [hc, if_false, List.length_append, List.length_nil,
          List.length_cons]
        push_cast
        omega
  | undo_op =>
    simp only [apply_op, hundo]
    cases hg : h.past.getLast? with
    | none => exact ⟨⟨hl, hs⟩, rfl⟩
    | some prev =>
      have hne : h.past ≠ [] := by
        intro h0
        rw [h0] at hg
        cases hg
      refine ⟨⟨hl, ?_⟩, rfl⟩
      simp only [List.length_dropLast, List.length_cons]
      have hpos : 0 < h.past.length := List.length_pos.mpr hne
      push_cast
      omega
  | redo_op =>
    simp only [apply_op, hredo]
    cases hf : h.future with
    | nil => exact ⟨⟨hl, hs⟩, rfl⟩
    | cons nxt rest =>
      refine ⟨⟨hl, ?_⟩, rfl⟩
      rw [hf] at hs
      simp only [List.length_append, List.length_cons, List.length_nil] at hs ⊢
      push_cast at hs ⊢
      omega

/-- The invariant and limit are preserved by any operation sequence. -/
theorem apply_ops_inv (ops : List HOp) (h : History) (hi : history_inv h) :
    history_inv (apply_ops h ops) ∧ (apply_ops h ops).limit = h.limit := by
  induction ops generalizing h with
  | nil => exact ⟨hi, rfl⟩
  | cons op ops ih =>
    have step := apply_op_inv h op hi
    have tailstep := ih (apply_op h op) step.1
    refine ⟨tailstep.1, ?_⟩
    rw [show apply_ops h (op :: ops) = apply_ops (apply_op h op) ops from rfl,
      tailstep.2, step.2]

/-- **C9.** `create_history(initial, limit)` fails when `limit ≤ 0`; for
every history created with a positive limit, every sequence of `push`,
`undo` and `redo` operations keeps at most `limit` past snapshots; and a
fresh-graph push at capacity silently discards the oldest past entry. -/
theorem history_capacity :
    (∀ (g : Graph) (L : Int), L ≤ 0 →
      create_history g L = .error .history_configuration) ∧
    (∀ (g : Graph) (L : Int) (h : History) (ops : List HOp),
      create_history g L = .ok h →
      ((apply_ops h ops).past.length : Int) ≤ h.limit) ∧
    (∀ (h : History) (g : Graph), (h.past.length : Int) = h.limit →
      (hpush h (some g)).past = h.past.drop 1 ++ [h.present] ∧
      (hpush h (some g)).present = g) := by
  refine ⟨?_, ?_, ?_⟩
  · intro g L hL
    simp [create_history, hL]
  · intro g L h ops hok
    by_cases hL : L ≤ 0
    · simp [create_history, hL] at hok
    · simp only [create_history, hL, if_false] at hok
      cases hok
      have hi : history_inv ⟨[], g, [], L⟩ := by
        refine ⟨?_, ?_⟩
        · show 0 < L
          omega
        · show ((([] : List Graph).length : Int) + (([] : List Graph).length : Int) ≤ L)
          simp
          omega
      have res := apply_ops_inv ops ⟨[], g, [], L⟩ hi
      have := res.1.2
      rw [res.2] at this
      omega
  · intro h g hcap
    have hge : (h.past.length : Int) ≥ h.limit := le_of_eq hcap.symm
    constructor
    · simp [hpush, hge]
    · simp [hpush]

/-- Witness for C9: a non-positive limit is rejected; a limit-2 history
never exceeds two past snapshots across a capacity-crossing operation
sequence; the at-capacity fixture drops its oldest entry. -/
theorem history_capacity_witness :
    create_history gex (-3) = .error .history_configuration ∧
    ((apply_ops h2_ex ops_ex).past.length : Int) ≤ h2_ex.limit ∧
    (hpush hcap_ex (some g_snap)).past = hcap_ex.past.drop 1 ++ [hcap_ex.present] :=
  ⟨history_capacity.1 gex (-3) (by decide),
    history_capacity.2.1 gex 2 h2_ex ops_ex (by decide),
    (history_capacity.2.2 hcap_ex g_snap (by decide)).1⟩

/-- At most one snapshot is recorded per executed command. -/
theorem snapshots_length_le (g : Graph) (cs : List Command) :
    (snapshots g cs).length ≤ cs.length := by
  induction cs generalizing g with
  | nil => simp [snapshots]
  | cons c cs ih =>
    cases hr : c.run g with
    | none =>
      simp only [snapshots, hr]
      exact Nat.le_succ_of_le (ih g)
    | some g' =>
      simp only [snapshots, hr, List.length_cons]
      exact Nat.succ_le_succ (ih g')

/-- Recombining a nonempty list from its `dropLast` and last element. -/
theorem dropLast_concat_getLastD (a : Graph) (l : List Graph) :
    (a :: l).dropLast ++ [l.getLastD a] = a :: l := by
  induction l generalizing a with
  | nil => simp
  | cons b l ih =>
    show a :: ((b :: l).dropLast ++ [(b :: l).getLastD a]) = a :: b :: l
    rw [List.getLastD_cons]
    rw [ih b]

/-- Shape of the state after executing a command list on a history with
an empty future, when the recorded snapshots fit under the limit: the
past collects the present and all snapshots but the last, the last
snapshot (or the unchanged present) is current, and the future is
empty. -/
theorem exec_list_eq (cs : List Command) (p : List Graph) (g : Graph) (L : Int)
    (hb : (p.length : Int) + ((snapshots g cs).length : Int) ≤ L) :
    exec_list ⟨⟨p, g, [], L⟩⟩ cs =
      ⟨⟨p ++ (g :: snapshots g cs).dropLast, (snapshots g cs).getLastD g, [], L⟩⟩ := by
  induction cs generalizing p g with
  | nil => simp [exec_list, snapshots]
  | cons c cs ih =>
    have hstep : exec_list ⟨⟨p, g, [], L⟩⟩ (c :: cs)
        = exec_list (execute_command ⟨⟨p, g, [], L⟩⟩ c) cs := rfl
    cases hr : c.run g with
    | none =>
      have hex : execute_command ⟨⟨p, g, [], L⟩⟩ c = ⟨⟨p, g, [], L⟩⟩ := by
        simp [execute_command, hpush, hr]
      have hsnap : snapshots g (c :: cs) = snapshots g cs := by
        simp [snapshots, hr]
      rw [hstep, hex, hsnap]
      exact ih p g (by rwa [hsnap] at hb)
    | some g' =>
      have hsnap : snapshots g (c :: cs) = g' :: snapshots g' cs := by
        simp [snapshots, hr]
      rw [hsnap] at hb
      have hlt : ¬((p.length : Int) ≥ L) := by
        simp only [List.length_cons] at hb
        push_cast at hb
        omega
      have hex : execute_command ⟨⟨p, g, [], L⟩⟩ c = ⟨⟨p ++ [g], g', [], L⟩⟩ := by
        simp [execute_command, hpush, hr, hlt]
      have hb' : (((p ++ [g]).length : Int)) + ((snapshots g' cs).length : Int) ≤ L := by
        simp only [List.length_append, List.length_cons, List.length_nil] at hb ⊢
        push_cast at hb ⊢
        omega
      rw [hstep, hex, ih (p ++ [g]) g' hb', hsnap]
      simp only [Command_state.mk.injEq, History.mk.injEq, eq_self_iff_true, and_true]
      refine ⟨?_, ?_⟩
      · simp [List.append_assoc]
      · exact (List.getLastD_cons g g' (snapshots g' cs)).symm

/-- Undoing at least `past.length` times empties the past: the oldest
snapshot (or the present, if the past is empty) becomes current and
everything else is prepended to the future. -/
theorem undo_times_all (n : Nat) (p : List Graph) (g : Graph) (f : List Graph) (L : Int)
    (hn : p.length ≤ n) :
    undo_times n ⟨⟨p, g, f, L⟩⟩ = ⟨⟨[], p.headD g, (p ++ [g]).tail ++ f, L⟩⟩ := by
  induction p using List.reverseRecOn generalizing n g f with
  | nil =>
    have hid : ∀ m, undo_times m (⟨⟨[], g, f, L⟩⟩ : Command_state) = ⟨⟨[], g, f, L⟩⟩ := by
      intro m
      induction m with
      | zero => rfl
      | succ m ihm =>
        show undo_times m (undo_command ⟨⟨[], g, f, L⟩⟩) = _
        have hu : undo_command (⟨⟨[], g, f, L⟩⟩ : Command_state) = ⟨⟨[], g, f, L⟩⟩ := by
          simp [undo_command, hundo]
        rw [hu, ihm]
    rw [hid n]
    simp
  | append_singleton q a ihq =>
    cases n with
    | zero =>
      simp at hn
    | succ n =>
      show undo_times n (undo_command ⟨⟨q ++ [a], g, f, L⟩⟩) = _
      have hu : undo_command (⟨⟨q ++ [a], g, f, L⟩⟩ : Command_state)
          = ⟨⟨q, a, g :: f, L⟩⟩ := by
        simp [undo_command, hundo, List.getLast?_concat, List.dropLast_concat]
      have hn' : q.length ≤ n := by
        simp only [List.length_append, List.length_cons, List.length_nil] at hn
        omega
      rw [hu, ihq n a (g :: f) hn']
      cases q <;> simp [List.append_assoc]

/-- Redoing at least `future.length` times empties the future, making the
newest future snapshot (or the present) current. -/
theorem redo_times_all (n : Nat) (f : List Graph) (p : List Graph) (g : Graph) (L : Int)
    (hn : f.length ≤ n) :
    redo_times n ⟨⟨p, g, f, L⟩⟩ = ⟨⟨p ++ (g :: f).dropLast, f.getLastD g, [], L⟩⟩ := by
  induction f generalizing n p g with
  | nil =>
    have hid : ∀ m, redo_times m (⟨⟨p, g, [], L⟩⟩ : Command_state) = ⟨⟨p, g, [], L⟩⟩ := by
      intro m
      induction m with
      | zero => rfl
      | succ m ihm =>
        show redo_times m (redo_command ⟨⟨p, g, [], L⟩⟩) = _
        have hr : redo_command (⟨⟨p, g, [], L⟩⟩ : Command_state) = ⟨⟨p, g, [], L⟩⟩ := by
          simp [redo_command, hredo]
        rw [hr, ihm]
    rw [hid n]
    simp
  | cons x xs ih =>
    cases n with
    | zero => simp at hn
    | succ n =>
      show redo_times n (redo_command ⟨⟨p, g, x :: xs, L⟩⟩) = _
      have hr : redo_command (⟨⟨p, g, x :: xs, L⟩⟩ : Command_state)
          = ⟨⟨p ++ [g], x, xs, L⟩⟩ := by
        simp [redo_command, hredo]
      have hn' : xs.length ≤ n := by
        simpa using Nat.le_of_succ_le_succ hn
      rw [hr, ih n (p ++ [g]) x hn']
      simp only [Command_state.mk.injEq, History.mk.injEq, eq_self_iff_true, and_true]
      refine ⟨?_, ?_⟩
      · simp [List.append_assoc]
      · exact (List.getLastD_cons g x xs).symm

set_option maxRecDepth 20000 in
/-- **C2 counterexample.** On a fresh default-limit (100) history,
executing 101 mutating commands and undoing 101 times does not return to
the original graph: the capacity limit silently discarded the oldest
snapshot, so the original claim fails for sequences longer than the
limit. -/
theorem history_undo_overflow :
    create_command_state create_graph 100 = .ok fresh_cs ∧
    (undo_times 101 (exec_list fresh_cs
      (List.replicate 101 cmd_to_snap))).history.present ≠ create_graph := by
  exact ⟨by decide, by decide⟩

/-- **C2 (amended).** For any command sequence `c1..cn` with `n` at most
the history limit, executing each command in order on a fresh history
and undoing `n` times returns the current graph to the original graph,
and redoing `n` times then returns it to the state after `cn`. -/
theorem history_determinism (g0 : Graph) (L : Int) (h0 : History) (cs : List Command)
    (hfresh : create_history g0 L = .ok h0)
    (hlen : (cs.length : Int) ≤ L) :
    (undo_times cs.length (exec_list ⟨h0⟩ cs)).history.present = g0 ∧
    (redo_times cs.length (undo_times cs.length (exec_list ⟨h0⟩ cs))).history.present =
      (exec_list ⟨h0⟩ cs).history.present := by
  have hL : ¬ L ≤ 0 := by
    intro hL0
    simp [create_history, hL0] at hfresh
  have hh0 : h0 = ⟨[], g0, [], L⟩ := by
    simp only [create_history, hL, if_false] at hfresh
    cases hfresh
    rfl
  subst hh0
  have hsl := snapshots_length_le g0 cs
  have hb : ((([] : List Graph).length : Int)) + ((snapshots g0 cs).length : Int) ≤ L := by
    simp only [List.length_nil, Nat.cast_zero, zero_add]
    have hc : ((snapshots g0 cs).length : Int) ≤ (cs.length : Int) := by
      exact_mod_cast hsl
    omega
  rw [exec_list_eq cs [] g0 L hb]
  simp only [List.nil_append]
  have hplen : (g0 :: snapshots g0 cs).dropLast.length ≤ cs.length := by
    simpa [List.length_dropLast] using hsl
  rw [undo_times_all cs.length _ _ _ L hplen]
  have hP : (g0 :: snapshots g0 cs).dropLast.headD
      ((snapshots g0 cs).getLastD g0) = g0 := by
    cases snapshots g0 cs with
    | nil => simp
    | cons s ss => simp
  have hF : ((g0 :: snapshots g0 cs).dropLast ++
      [(snapshots g0 cs).getLastD g0]).tail ++ [] = snapshots g0 cs := by
    rw [dropLast_concat_getLastD]
    simp
  constructor
  · simpa using hP
  · rw [show (⟨⟨[], (g0 :: snapshots g0 cs).dropLast.headD ((snapshots g0 cs).getLastD g0),
        ((g0 :: snapshots g0 cs).dropLast ++ [(snapshots g0 cs).getLastD g0]).tail ++ [],
        L⟩⟩ : Command_state) = ⟨⟨[], g0, snapshots g0 cs, L⟩⟩ from by rw [hP, hF]]
    rw [redo_times_all cs.length (snapshots g0 cs) [] g0 L hsl]

/-- Witness for the amended C2: a two-command sequence (one mutating, one
no-op) on a fresh limit-100 history round-trips through undo and redo. -/
theorem history_determinism_witness :
    (undo_times 2 (exec_list ⟨⟨[], create_graph, [], 100⟩⟩
      [cmd_to_snap, cmd_noop])).history.present = create_graph :=
  (history_determinism create_graph 100 ⟨[], create_graph, [], 100⟩
    [cmd_to_snap, cmd_noop] (by decide) (by decide)).1

/-! ### Association-list facts used by the round-trip proof -/

theorem mhas_false_iff {α : Type} (m : List (String × α)) (k : String) :
    mhas m k = false ↔ k ∉ m.map Prod.fst := by
  unfold mhas
  rw [← Bool.not_eq_true, List.any_eq_true]
  simp only [List.mem_map, decide_eq_true_eq]

theorem mset_fresh {α : Type} (m : List (String × α)) (k : String) (v : α)
    (h : mhas m k = false) : mset m k v = m ++ [(k, v)] := by
  induction m with
  | nil => rfl
  | cons kv rest ih =>
    simp only [mhas, List.any_cons, Bool.or_eq_false_iff] at h
    obtain ⟨h1, h2⟩ := h
    have hne : ¬kv.1 = k := by simpa using h1
    simp only [mset, hne, if_false, List.cons_append]
    rw [ih h2]

theorem mget_append_left {α : Type} (m m' : List (String × α)) (k : String) (v : α)
    (h : mget m k = some v) : mget (m ++ m') k = some v := by
  induction m with
  | nil => exact Option.noConfusion h
  | cons kv rest ih =>
    rw [List.cons_append]
    cases kv with
    | mk k1 v1 =>
      simp only [mget] at h ⊢
      by_cases hk : k1 = k
      · rw [if_pos hk] at h ⊢
        exact h
      · rw [if_neg hk] at h ⊢
        exact ih h

theorem mget_of_mem_nodup {α : Type} (m : List (String × α)) (k : String) (v : α)
    (hmem : (k, v) ∈ m) (hnd : (m.map Prod.fst).Nodup) : mget m k = some v := by
  induction m with
  | nil => simp at hmem
  | cons kv rest ih =>
    simp only [List.map_cons, List.nodup_cons] at hnd
    rcases List.mem_cons.mp hmem with heq | hmem'
    · cases heq
      simp [mget]
    · have hne : ¬kv.1 = k := by
        intro hk
        exact hnd.1 (hk ▸ (List.mem_map.mpr ⟨(k, v), hmem', rfl⟩))
      simp only [mget, hne, if_false]
      exact ih hmem' hnd.2

theorem edge_ok_append (nodes : List (String × Node)) (ext : List (String × Node))
    (e : Edge) (h : edge_ok nodes e) : edge_ok (nodes ++ ext) e := by
  obtain ⟨fn, fp, tn, tp, h1, h2, h3, h4, h5, h6⟩ := h
  exact ⟨fn, fp, tn, tp, mget_append_left _ _ _ _ h1, h2, h3,
    mget_append_left _ _ _ _ h4, h5, h6⟩

/-! ### Deep copies are the identity in value semantics -/

theorem clone_node_eq (n : Node) : clone_node n = n := by
  simp [clone_node]

theorem clone_edge_eq (e : Edge) : clone_edge e = e := by
  simp [clone_edge]

/-! ### Normalization is idempotent -/

theorem normalize_ports_idem (nid : String) (ps : List Port) :
    ∀ (qs : List Port) (i : Nat) (seen : List String),
    normalize_ports nid ps i seen = .ok qs →
    normalize_ports nid qs i seen = .ok qs := by
  induction ps with
  | nil =>
    intro qs i seen h
    simp only [normalize_ports] at h
    cases h
    rfl
  | cons p rest ih =>
    intro qs i seen h
    simp only [normalize_ports] at h
    by_cases hseen : p.id.getD (nid ++ "_port_" ++ toString i) ∈ seen
    · simp [hseen] at h
    · simp only [hseen, if_false] at h
      cases htail : normalize_ports nid rest (i + 1)
          (p.id.getD (nid ++ "_port_" ++ toString i) :: seen) with
      | error e =>
        rw [htail] at h
        simp [Bind.bind, Except.bind] at h
      | ok tail =>
        rw [htail] at h
        simp only [Bind.bind, Except.bind, Except.ok.injEq] at h
        subst h
        have htail' := ih tail (i + 1)
          (p.id.getD (nid ++ "_port_" ++ toString i) :: seen) htail
        simp only [normalize_ports, Option.getD_some, hseen, if_false, htail',
          Bind.bind, Except.bind, Except.ok.injEq]

theorem normalize_node_idem (n m : Node) (h : normalize_node n = .ok m) :
    normalize_node m = .ok m := by
  unfold normalize_node at h ⊢
  cases hp : normalize_ports n.id n.ports 0 [] with
  | error e =>
    rw [hp] at h
    simp [Bind.bind, Except.bind] at h
  | ok ps =>
    rw [hp] at h
    simp only [Bind.bind, Except.bind, Except.ok.injEq] at h
    subst h
    have hidem := normalize_ports_idem n.id n.ports ps 0 [] hp
    simp only [hidem, Except.ok.injEq]
    rfl

theorem normalize_node_id (n m : Node) (h : normalize_node n = .ok m) :
    m.id = n.id := by
  unfold normalize_node at h
  cases hp : normalize_ports n.id n.ports 0 [] with
  | error e =>
    rw [hp] at h
    simp [Bind.bind, Except.bind] at h
  | ok ps =>
    rw [hp] at h
    simp only [Bind.bind, Except.bind, Except.ok.injEq] at h
    subst h
    rfl

/-! ### Reachable graphs are well-formed -/

theorem graph_wf_add (g : Graph) (n : Node) (g' : Graph)
    (hwf : graph_wf g) (h : add_node g n = .ok g') : graph_wf g' := by
  unfold add_node at h
  cases hh : mhas g.nodes n.id with
  | true => simp [hh] at h
  | false =>
    rw [hh] at h
    simp only [Bool.false_eq_true, if_false] at h
    cases hn : normalize_node n with
    | error e =>
      rw [hn] at h
      simp [Bind.bind, Except.bind] at h
    | ok nn =>
      rw [hn] at h
      simp only [Bind.bind, Except.bind, Except.ok.injEq] at h
      subst h
      have hid : nn.id = n.id := normalize_node_id n nn hn
      have hfresh : mhas g.nodes nn.id = false := by
        rw [hid]
        exact hh
      have hset : mset g.nodes nn.id nn = g.nodes ++ [(nn.id, nn)] :=
        mset_fresh _ _ _ hfresh
      obtain ⟨hN, hND, hE, hED⟩ := hwf
      refine ⟨?_, ?_, ?_, ?_⟩
      · intro kn hkn
        rw [show (Graph.mk (mset g.nodes nn.id nn) g.edges).nodes
            = g.nodes ++ [(nn.id, nn)] from hset] at hkn
        rcases List.mem_append.mp hkn with hold | hnew
        · exact hN kn hold
        · have : kn = (nn.id, nn) := by simpa using hnew
          subst this
          exact ⟨rfl, normalize_node_idem n nn hn⟩
      · rw [show (Graph.mk (mset g.nodes nn.id nn) g.edges).nodes
            = g.nodes ++ [(nn.id, nn)] from hset]
        simp only [List.map_append, List.map_cons, List.map_nil]
        refine List.Nodup.append hND (List.nodup_singleton _) ?_
        intro a ha hb
        have : a = nn.id := by simpa using hb
        subst this
        exact (mhas_false_iff g.nodes nn.id).mp hfresh ha
      · intro ke hke
        obtain ⟨h1, h2⟩ := hE ke hke
        refine ⟨h1, ?_⟩
        rw [show (Graph.mk (mset g.nodes nn.id nn) g.edges).nodes
            = g.nodes ++ [(nn.id, nn)] from hset]
        exact edge_ok_append _ _ _ h2
      · exact hED

theorem connect_ok_cases (g : Graph) (i : Connect_input) (c c' : Counters) (g' : Graph)
    (h : connect g i c = (c', .ok g')) :
    ∃ fn fp tn tp eid,
      mget g.nodes i.from_ep.node_id = some fn ∧
      find_port fn i.from_ep.port_id = some fp ∧
      ¬fp.kind = .inp ∧
      mget g.nodes i.to_ep.node_id = some tn ∧
      find_port tn i.to_ep.port_id = some tp ∧
      ¬tp.kind = .out ∧
      mhas g.edges eid = false ∧
      g' = ⟨g.nodes, mset g.edges eid
        ⟨eid, ⟨i.from_ep.node_id, i.from_ep.port_id⟩,
          ⟨i.to_ep.node_id, i.to_ep.port_id⟩, i.data⟩⟩ := by
  unfold connect at h
  cases hfn : mget g.nodes i.from_ep.node_id with
  | none =>
    simp only [hfn] at h
    simp at h
  | some fn =>
    simp only [hfn] at h
    cases htn : mget g.nodes i.to_ep.node_id with
    | none =>
      simp only [htn] at h
      simp at h
    | some tn =>
      simp only [htn] at h
      cases hfp : find_port fn i.from_ep.port_id with
      | none =>
        simp only [hfp] at h
        simp at h
      | some fp =>
        simp only [hfp] at h
        cases htp : find_port tn i.to_ep.port_id with
        | none =>
          simp only [htp] at h
          simp at h
        | some tp =>
          simp only [htp] at h
          by_cases hk1 : fp.kind = .inp
          · simp [hk1] at h
          · by_cases hk2 : tp.kind = .out
            · simp [hk1, hk2] at h
            · simp only [hk1, hk2, if_false] at h
              refine ⟨fn, fp, tn, tp,
                (match i.id with
                  | some given => (given, c)
                  | none => gen_id c ("e")).1,
                rfl, hfp, hk1, rfl, htp, hk2, ?_, ?_⟩
              · by_cases hdup : mhas g.edges
                    (match i.id with
                      | some given => (given, c)
                      | none => gen_id c ("e")).1 = true
                · rw [if_pos hdup] at h
                  simp at h
                · simpa using hdup
              · by_cases hdup : mhas g.edges
                    (match i.id with
                      | some given => (given, c)
                      | none => gen_id c ("e")).1 = true
                · rw [if_pos hdup] at h
                  simp at h
                · rw [if_neg hdup] at h
                  simp only [Prod.mk.injEq, Except.ok.injEq] at h
                  exact h.2.symm

theorem graph_wf_conn (g : Graph) (i : Connect_input) (c c' : Counters) (g' : Graph)
    (hwf : graph_wf g) (h : connect g i c = (c', .ok g')) : graph_wf g' := by
  obtain ⟨fn, fp, tn, tp, eid, h1, h2, h3, h4, h5, h6, h7, h8⟩ :=
    connect_ok_cases g i c c' g' h
  subst h8
  have hset : mset g.edges eid
      ⟨eid, ⟨i.from_ep.node_id, i.from_ep.port_id⟩,
        ⟨i.to_ep.node_id, i.to_ep.port_id⟩, i.data⟩
      = g.edges ++ [(eid, ⟨eid, ⟨i.from_ep.node_id, i.from_ep.port_id⟩,
        ⟨i.to_ep.node_id, i.to_ep.port_id⟩, i.data⟩)] :=
    mset_fresh _ _ _ h7
  obtain ⟨hN, hND, hE, hED⟩ := hwf
  refine ⟨hN, hND, ?_, ?_⟩
  · intro ke hke
    rw [show (Graph.mk g.nodes (mset g.edges eid _)).edges
        = g.edges ++ _ from hset] at hke
    rcases List.mem_append.mp hke with hold | hnew
    · exact hE ke hold
    · have : ke = (eid, ⟨eid, ⟨i.from_ep.node_id, i.from_ep.port_id⟩,
          ⟨i.to_ep.node_id, i.to_ep.port_id⟩, i.data⟩) := by simpa using hnew
      subst this
      exact ⟨rfl, fn, fp, tn, tp, h1, h2, h3, h4, h5, h6⟩
  · rw [show (Graph.mk g.nodes (mset g.edges eid _)).edges
        = g.edges ++ _ from hset]
    simp only [List.map_append, List.map_cons, List.map_nil]
    refine List.Nodup.append hED (List.nodup_singleton _) ?_
    intro a ha hb
    have ha2 : eid ∈ g.edges.map Prod.fst := by
      have hae : a = eid := by simpa using hb
      rwa [hae] at ha
    exact (mhas_false_iff g.edges eid).mp h7 ha2

theorem reachable_wf (g : Graph) (h : Reachable g) : graph_wf g := by
  induction h with
  | empty =>
    exact ⟨by simp [create_graph], by simp [create_graph],
      by simp [create_graph], by simp [create_graph]⟩
  | add hr hop ih => exact graph_wf_add _ _ _ ih hop
  | conn hr hop ih => exact graph_wf_conn _ _ _ _ _ ih hop

/-! ### Replaying a snapshot rebuilds the maps entry by entry -/

theorem replay_nodes_app (ns : List Node) (pre : Graph)
    (hok : ∀ n ∈ ns, normalize_node n = .ok n)
    (hnd : (pre.nodes.map Prod.fst ++ ns.map Node.id).Nodup) :
    replay_nodes ns pre = .ok ⟨pre.nodes ++ ns.map (fun n => (n.id, n)), pre.edges⟩ := by
  induction ns generalizing pre with
  | nil => simp [replay_nodes]
  | cons n ns ih =>
    have hnd1 := hnd
    rw [List.map_cons, List.nodup_append] at hnd1
    have hfresh : mhas pre.nodes n.id = false := by
      rw [mhas_false_iff]
      intro hmem
      exact hnd1.2.2 hmem (List.mem_cons_self _ _)
    have hadd : add_node pre (clone_node n) = .ok ⟨pre.nodes ++ [(n.id, n)], pre.edges⟩ := by
      rw [clone_node_eq]
      unfold add_node
      rw [hfresh]
      simp only [Bool.false_eq_true, if_false, hok n (List.mem_cons_self _ _),
        Bind.bind, Except.bind]
      rw [mset_fresh _ _ _ hfresh]
    have hnd2 : ((Graph.mk (pre.nodes ++ [(n.id, n)]) pre.edges).nodes.map Prod.fst
        ++ ns.map Node.id).Nodup := by
      show ((pre.nodes ++ [(n.id, n)]).map Prod.fst ++ ns.map Node.id).Nodup
      rw [List.map_append, List.append_assoc]
      simpa using hnd
    have hrec := ih ⟨pre.nodes ++ [(n.id, n)], pre.edges⟩
      (fun m hm => hok m (List.mem_cons_of_mem _ hm)) hnd2
    simp only [replay_nodes, hadd, hrec, Except.ok.injEq]
    simp [List.append_assoc]

theorem replay_edges_app (es : List Edge) (pre : Graph) (c : Counters)
    (hok : ∀ e ∈ es, edge_ok pre.nodes e)
    (hnd : (pre.edges.map Prod.fst ++ es.map Edge.id).Nodup) :
    replay_edges es pre c = (c, .ok ⟨pre.nodes, pre.edges ++ es.map (fun e => (e.id, e))⟩) := by
  induction es generalizing pre with
  | nil => simp [replay_edges]
  | cons e es ih =>
    obtain ⟨fn, fp, tn, tp, h1, h2, h3, h4, h5, h6⟩ := hok e (List.mem_cons_self _ _)
    have hnd1 := hnd
    rw [List.map_cons, List.nodup_append] at hnd1
    have hfresh : mhas pre.edges e.id = false := by
      rw [mhas_false_iff]
      intro hmem
      exact hnd1.2.2 hmem (List.mem_cons_self _ _)
    have hconn : connect pre ⟨⟨e.from_ep.node_id, e.from_ep.port_id⟩,
        ⟨e.to_ep.node_id, e.to_ep.port_id⟩, some e.id, e.data⟩ c
        = (c, .ok ⟨pre.nodes, pre.edges ++ [(e.id, e)]⟩) := by
      unfold connect
      simp only [h1, h2, h3, h4, h5, h6, if_neg, if_false]
      rw [hfresh]
      simp only [Bool.false_eq_true, if_false]
      rw [mset_fresh _ _ _ hfresh]
    have hnd2 : ((Graph.mk pre.nodes (pre.edges ++ [(e.id, e)])).edges.map Prod.fst
        ++ es.map Edge.id).Nodup := by
      show ((pre.edges ++ [(e.id, e)]).map Prod.fst ++ es.map Edge.id).Nodup
      rw [List.map_append, List.append_assoc]
      simpa using hnd
    have hok2 : ∀ e' ∈ es, edge_ok (Graph.mk pre.nodes (pre.edges ++ [(e.id, e)])).nodes e' :=
      fun e' he' => hok e' (List.mem_cons_of_mem _ he')
    have hrec := ih ⟨pre.nodes, pre.edges ++ [(e.id, e)]⟩ hok2 hnd2
    simp only [replay_edges, hconn, hrec, Prod.mk.injEq, Except.ok.injEq]
    simp [List.append_assoc]

/-- **C1.** For every graph built by a valid sequence of `add_node` and
`connect` operations, deserializing its serialization rebuilds a
structurally equal graph: the same node entries (ids and port lists) and
the same edge entries (ids, endpoint mappings, and data), in the same
order. (The rebuilt graph is a fresh value produced by replaying
`add_node`/`connect` against the empty graph, so it is never
reference-equal to the input.) -/
theorem serialize_round_trip (g : Graph) (hr : Reachable g) (c : Counters) :
    (deserialize_graph (serialize_graph g) c).2 = .ok g := by
  obtain ⟨hN, hND, hE, hED⟩ := reachable_wf g hr
  have hsn : (serialize_graph g).nodes = g.nodes.map (fun kv => kv.2) := by
    simp [serialize_graph, clone_node_eq]
  have hse : (serialize_graph g).edges = g.edges.map (fun kv => kv.2) := by
    simp [serialize_graph, clone_edge_eq]
  have hids : (g.nodes.map (fun kv => kv.2)).map Node.id = g.nodes.map Prod.fst := by
    rw [List.map_map]
    exact List.map_congr_left (fun kv hkv => ((hN kv hkv).1).symm)
  have heids : (g.edges.map (fun kv => kv.2)).map Edge.id = g.edges.map Prod.fst := by
    rw [List.map_map]
    exact List.map_congr_left (fun kv hkv => ((hE kv hkv).1).symm)
  have hback_n : (g.nodes.map (fun kv => kv.2)).map (fun n => (n.id, n)) = g.nodes := by
    rw [List.map_map]
    have hcongr : ∀ kv ∈ g.nodes, ((fun n => (n.id, n)) ∘ fun kv => kv.2) kv = id kv := by
      intro kv hkv
      obtain ⟨h1, -⟩ := hN kv hkv
      cases kv with
      | mk k v =>
        simp only [Function.comp, id]
        simp only at h1
        rw [h1]
    rw [List.map_congr_left hcongr, List.map_id]
  have hback_e : (g.edges.map (fun kv => kv.2)).map (fun e => (e.id, e)) = g.edges := by
    rw [List.map_map]
    have hcongr : ∀ kv ∈ g.edges, ((fun e => (e.id, e)) ∘ fun kv => kv.2) kv = id kv := by
      intro kv hkv
      obtain ⟨h1, -⟩ := hE kv hkv
      cases kv with
      | mk k v =>
        simp only [Function.comp, id]
        simp only at h1
        rw [h1]
    rw [List.map_congr_left hcongr, List.map_id]
  have hrn : replay_nodes (g.nodes.map (fun kv => kv.2)) create_graph
      = .ok ⟨g.nodes, []⟩ := by
    have happ := replay_nodes_app (g.nodes.map (fun kv => kv.2)) create_graph
      (fun n hn => by
        obtain ⟨kv, hkv, hkv2⟩ := List.mem_map.mp hn
        rw [← hkv2]
        exact (hN kv hkv).2)
      (by
        show ((([] : List (String × Node)).map Prod.fst)
          ++ (g.nodes.map (fun kv => kv.2)).map Node.id).Nodup
        rw [hids]
        simpa using hND)
    rw [happ]
    show Except.ok (Graph.mk ([] ++ (g.nodes.map (fun kv => kv.2)).map (fun n => (n.id, n))) []) = _
    rw [List.nil_append, hback_n]
  have hre : ∀ cX : Counters, replay_edges (g.edges.map (fun kv => kv.2)) ⟨g.nodes, []⟩ cX
      = (cX, .ok g) := by
    intro cX
    have happ := replay_edges_app (g.edges.map (fun kv => kv.2)) ⟨g.nodes, []⟩ cX
      (fun e he => by
        obtain ⟨kv, hkv, hkv2⟩ := List.mem_map.mp he
        rw [← hkv2]
        exact (hE kv hkv).2)
      (by
        show ((([] : List (String × Edge)).map Prod.fst)
          ++ (g.edges.map (fun kv => kv.2)).map Edge.id).Nodup
        rw [heids]
        simpa using hED)
    rw [happ]
    refine Prod.ext rfl ?_
    show Except.ok (Graph.mk g.nodes
      ([] ++ (g.edges.map (fun kv => kv.2)).map (fun e => (e.id, e)))) = Except.ok g
    rw [List.nil_append, hback_e]
  unfold deserialize_graph
  rw [hsn, hse]
  simp only [hrn]
  rw [hre]

/-- Witness for C1: the two-node, one-edge fixture graph, built by the
recorded `add_node`/`add_node`/`connect` sequence, round-trips. -/
theorem serialize_round_trip_witness :
    (deserialize_graph (serialize_graph gex) ctr_ex).2 = .ok gex :=
  serialize_round_trip gex
    (Reachable.conn
      (Reachable.add
        (Reachable.add Reachable.empty
          (show add_node create_graph node_a = .ok g_a from by decide))
        (show add_node g_a node_b = .ok g_ab from by decide))
      (show connect g_ab ⟨⟨"a", "a_out"⟩, ⟨"b", "b_in"⟩, some ("e_1"), none⟩ []
        = ([], .ok gex) from by decide))
    ctr_ex

/-- **C7.** For anchors at `(0,0)` with normal `(1,0)` and `(24,0)` with
normal `(-1,0)` under default options, `route_edge` returns a route of
kind `line` whose path runs exactly from `(0,0)` to `(24,0)` with
reported curvature `0`: the span (24) is at most 32 and both alignments
are `1 ≥ 0.9`. Stated for any square-root function agreeing with
`Math.sqrt` on the two perfect squares this input evaluates. -/
theorem routing_short_facing_line (S : ℚ → ℚ)
    (h576 : S 576 = 24) (h1 : S 1 = 1) :
    route_edge S ⟨⟨0, 0⟩, ⟨1, 0⟩⟩ ⟨⟨24, 0⟩, ⟨-1, 0⟩⟩ default_route_options =
      ⟨.line, .line ⟨0, 0⟩ ⟨24, 0⟩, none, none, some ⟨0, 24, 1, 1, 1⟩⟩ := by
  unfold route_edge
  norm_num [hypot, vnormalize, vdot, clamp01, default_route_options,
    DEFAULT_CURVATURE, DEFAULT_MIN_HANDLE, DEFAULT_HANDLE_RATIO,
    STRAIGHT_DISTANCE_THRESHOLD, STRAIGHT_ALIGNMENT_THRESHOLD,
    STRAIGHT_CURVATURE_THRESHOLD, CURVATURE_DISTANCE_RANGE, JS_EPSILON,
    h576, h1]

/-! ### The avoidance scans under total blockage -/

/-- When every attempt candidate intersects, the bounded attempt loop
falls through. -/
theorem attempts_scan_none (cand : ℚ → Edge_route_result) (hits : ℚ → Bool)
    (l : List (ℚ × ℚ)) (hh : ∀ a ∈ l, hits (a.2 * a.1) = true) :
    attempts_scan cand hits l = none := by
  induction l with
  | nil => rfl
  | cons a l ih =>
    simp only [attempts_scan, hh a (List.mem_cons_self _ _), if_true]
    exact ih (fun b hb => hh b (List.mem_cons_of_mem _ hb))

/-- The fallback scan keeps its accumulator while every candidate hits
and none strictly beats the stored projection. -/
theorem fallback_scan_keep (cand : ℚ → Edge_route_result) (hits : ℚ → Bool)
    (proj : ℚ → ℚ) (l : List ℚ) (best : Edge_route_result) (bp : ℚ)
    (hh : ∀ s ∈ l, hits s = true)
    (hle : ∀ s ∈ l, s = 0 ∨ ¬proj s > bp) :
    fallback_scan cand hits proj l (best, bp) = best := by
  induction l with
  | nil => rfl
  | cons s l ih =>
    by_cases h0 : s = 0
    · simp only [fallback_scan, if_pos h0]
      exact ih (fun b hb => hh b (List.mem_cons_of_mem _ hb))
        (fun b hb => hle b (List.mem_cons_of_mem _ hb))
    · have hs := hh s (List.mem_cons_self _ _)
      have hnp : ¬proj s > bp := by
        rcases hle s (List.mem_cons_self _ _) with h | h
        · exact absurd h h0
        · exact h
      simp only [fallback_scan, if_neg h0, hs, if_true, if_neg hnp]
      exact ih (fun b hb => hh b (List.mem_cons_of_mem _ hb))
        (fun b hb => hle b (List.mem_cons_of_mem _ hb))

/-- When every candidate hits, the fallback scan returns the first
candidate attaining the maximal projection: elements before it project
strictly below, elements after at most equal. -/
theorem fallback_scan_to_target (cand : ℚ → Edge_route_result) (hits : ℚ → Bool)
    (proj : ℚ → ℚ) (t : ℚ) (l₂ : List ℚ)
    (ht0 : ¬t = 0) (hht : hits t = true)
    (hh₂ : ∀ s ∈ l₂, hits s = true)
    (hpost : ∀ s ∈ l₂, s = 0 ∨ proj s ≤ proj t) :
    ∀ (l₁ : List ℚ), (∀ s ∈ l₁, hits s = true) → (∀ s ∈ l₁, proj s < proj t) →
    ∀ (best : Edge_route_result) (bp : ℚ), proj t > bp →
    fallback_scan cand hits proj (l₁ ++ t :: l₂) (best, bp) = cand t := by
  intro l₁
  induction l₁ with
  | nil =>
    intro _ _ best bp hgt
    simp only [List.nil_append, fallback_scan, if_neg ht0, hht, if_true, if_pos hgt]
    exact fallback_scan_keep cand hits proj l₂ (cand t) (proj t) hh₂
      (fun s hs => (hpost s hs).imp id not_lt.mpr)
  | cons a l₁ ih =>
    intro hh₁ hpre best bp hgt
    have ha := hh₁ a (List.mem_cons_self _ _)
    have hh₁' := fun s hs => hh₁ s (List.mem_cons_of_mem _ hs)
    have hpre' := fun s hs => hpre s (List.mem_cons_of_mem _ hs)
    by_cases h0 : a = 0
    · simp only [List.cons_append, fallback_scan, if_pos h0]
      exact ih hh₁' hpre' best bp hgt
    · simp only [List.cons_append, fallback_scan, if_neg h0, ha, if_true]
      by_cases hup : proj a > bp
      · rw [if_pos hup]
        exact ih hh₁' hpre' (cand a) (proj a) (hpre a (List.mem_cons_self _ _))
      · rw [if_neg hup]
        exact ih hh₁' hpre' best bp hgt

/-- **C8.** Routing is total and degrades instead of failing: every
`route_edge` call returns a result whose kind is `line` or `quadratic`
(the embedding is a total function — the source has no `throw` and all
degenerate inputs, zero-distance anchors and zero-length normals
included, take the guarded early paths); and when the straight line is
blocked and every perpendicular-shift candidate of `reroute_line` still
intersects, the returned route is the candidate with the largest
perpendicular displacement (the scale-`9/2` shift in the positive
direction, first to attain the maximum). The `ctx` hypotheses record how
`route_edge` builds the context: a positive distance whose square is the
squared anchor span, and the unit direction vector. -/
theorem routing_never_fails :
    (∀ (S : ℚ → ℚ) (fa ta : Edge_anchor) (opts : Edge_route_options),
      (route_edge S fa ta opts).kind = .line ∨
        (route_edge S fa ta opts).kind = .quadratic) ∧
    (∀ (S : ℚ → ℚ) (ctx : Obstacle_context),
      0 < ctx.distance →
      ctx.distance * ctx.distance =
        (ctx.to_a.position.x - ctx.from_a.position.x) *
          (ctx.to_a.position.x - ctx.from_a.position.x) +
        (ctx.to_a.position.y - ctx.from_a.position.y) *
          (ctx.to_a.position.y - ctx.from_a.position.y) →
      ctx.unit = ⟨(ctx.to_a.position.x - ctx.from_a.position.x) / ctx.distance,
        (ctx.to_a.position.y - ctx.from_a.position.y) / ctx.distance⟩ →
      ctx.obstacles ≠ [] →
      line_hits_obstacle ctx.from_a.position ctx.to_a.position
        (rl_effective ctx) false false = true →
      (∀ s ∈ rl_all_signed_scales, rl_candidate_hits S ctx s = true) →
      reroute_line S ctx = rl_candidate S ctx (9 / 2) ∧
      rl_all_signed_scales.all
        (fun s => decide (rl_projection S ctx s ≤ rl_projection S ctx (9 / 2))) = true) := by
  constructor
  · intro S fa ta opts
    cases hk : (route_edge S fa ta opts).kind with
    | line => exact Or.inl rfl
    | quadratic => exact Or.inr rfl
  · intro S ctx hd hdsq hunit hobs hline hall
    have hdb : 0 < rl_detour_base ctx := by
      have h1 : 0 < ctx.distance * OBSTACLE_SHIFT_MULTIPLIER := by
        have : (0 : ℚ) < OBSTACLE_SHIFT_MULTIPLIER := by norm_num [OBSTACLE_SHIFT_MULTIPLIER]
        exact mul_pos hd this
      exact lt_of_lt_of_le h1 ((le_max_left _ _).trans (le_max_left _ _))
    have hperp : (rl_perpendicular ctx).x * (rl_perpendicular ctx).x +
        (rl_perpendicular ctx).y * (rl_perpendicular ctx).y = 1 := by
      unfold rl_perpendicular
      rw [hunit]
      have hdne : ctx.distance ≠ 0 := ne_of_gt hd
      field_simp
      linarith [hdsq]
    have key : ∀ s : ℚ, (rl_perpendicular ctx).x *
        ((rl_control S ctx s).x - (rl_base_control S ctx).x) +
        (rl_perpendicular ctx).y *
        ((rl_control S ctx s).y - (rl_base_control S ctx).y) =
        ((rl_perpendicular ctx).x * (rl_perpendicular ctx).x +
          (rl_perpendicular ctx).y * (rl_perpendicular ctx).y) *
          (rl_detour_base ctx * s) := by
      intro s
      unfold rl_control rl_base_control compute_control shift_handles
      ring
    have hproj : ∀ s : ℚ, rl_projection S ctx s = rl_detour_base ctx * |s| := by
      intro s
      unfold rl_projection
      rw [key s, hperp, one_mul, abs_mul, abs_of_pos hdb]
    have hdecomp : fallback_signed_scales =
        [3/2, 2, 5/2, 3, 7/2, 4] ++ (9/2 : ℚ) ::
          [-(3/2), -2, -(5/2), -3, -(7/2), -4, -(9/2)] := by decide
    have hattempts : ∀ a ∈ OBSTACLE_SHIFT_ATTEMPTS, rl_candidate_hits S ctx (a.2 * a.1) = true := by
      intro a ha
      refine hall (a.2 * a.1) ?_
      exact List.mem_append_left _ (List.mem_map.mpr ⟨a, ha, rfl⟩)
    have hsub : ∀ s ∈ fallback_signed_scales, s ∈ rl_all_signed_scales := by
      intro s hs
      exact List.mem_append_right _ hs
    constructor
    · unfold reroute_line
      rw [if_neg (fun hc => hobs (List.isEmpty_iff.mp hc))]
      rw [if_neg (by simp [hline])]
      rw [attempts_scan_none (rl_candidate S ctx) (rl_candidate_hits S ctx)
        OBSTACLE_SHIFT_ATTEMPTS hattempts]
      rw [hdecomp]
      refine fallback_scan_to_target (rl_candidate S ctx) (rl_candidate_hits S ctx)
        (rl_projection S ctx) (9/2) _ (by norm_num)
        (hall (9/2) (by decide)) ?_ ?_ _ ?_ ?_ (ctx.route) 0 ?_
      · intro s hs
        refine hall s (hsub s ?_)
        rw [hdecomp]
        exact List.mem_append_right _ (List.mem_cons_of_mem _ hs)
      · intro s hs
        refine Or.inr ?_
        rw [hproj, hproj]
        refine mul_le_mul_of_nonneg_left ?_ hdb.le
        fin_cases hs <;> decide
      · intro s hs
        refine hall s (hsub s ?_)
        rw [hdecomp]
        exact List.mem_append_left _ hs
      · intro s hs
        rw [hproj, hproj]
        refine mul_lt_mul_of_pos_left ?_ hdb
        fin_cases hs <;> decide
      · rw [hproj]
        exact mul_pos hdb (by decide)
    · rw [List.all_eq_true]
      intro s hs
      simp only [decide_eq_true_eq]
      rw [hproj, hproj]
      refine mul_le_mul_of_nonneg_left ?_ hdb.le
      have hmem : s ∈ ([1, -1, 3/2, -(3/2)] : List ℚ) ++
          ([3/2, 2, 5/2, 3, 7/2, 4] ++ (9/2 : ℚ) ::
            [-(3/2), -2, -(5/2), -3, -(7/2), -4, -(9/2)]) := by
        have hms : rl_all_signed_scales = ([1, -1, 3/2, -(3/2)] : List ℚ) ++
            ([3/2, 2, 5/2, 3, 7/2, 4] ++ (9/2 : ℚ) ::
              [-(3/2), -2, -(5/2), -3, -(7/2), -4, -(9/2)]) := by decide
        rwa [hms] at hs
      fin_cases hmem <;> decide

/-- Witness for the C8 conjunction: the totality part at the C7 anchors,
and the exhausted-avoidance part at the fully blocked fixture context,
where every candidate curve crosses `huge_obstacle`. -/
theorem routing_never_fails_witness :
    ((route_edge sqrt_stub ⟨⟨0, 0⟩, ⟨1, 0⟩⟩ ⟨⟨24, 0⟩, ⟨-1, 0⟩⟩
        default_route_options).kind = .line ∨
      (route_edge sqrt_stub ⟨⟨0, 0⟩, ⟨1, 0⟩⟩ ⟨⟨24, 0⟩, ⟨-1, 0⟩⟩
        default_route_options).kind = .quadratic) ∧
    reroute_line sqrt_stub ctx_blocked = rl_candidate sqrt_stub ctx_blocked (9 / 2) :=
  ⟨routing_never_fails.1 sqrt_stub ⟨⟨0, 0⟩, ⟨1, 0⟩⟩ ⟨⟨24, 0⟩, ⟨-1, 0⟩⟩
      default_route_options,
    (routing_never_fails.2 sqrt_stub ctx_blocked (by decide) (by decide) (by decide)
      (by decide) (by decide) (by decide)).1⟩

/-- Witness for C7 at the concrete square-root stand-in. -/
theorem routing_short_facing_line_witness :
    route_edge sqrt_stub ⟨⟨0, 0⟩, ⟨1, 0⟩⟩ ⟨⟨24, 0⟩, ⟨-1, 0⟩⟩ default_route_options =
      ⟨.line, .line ⟨0, 0⟩ ⟨24, 0⟩, none, none, some ⟨0, 24, 1, 1, 1⟩⟩ :=
  routing_short_facing_line sqrt_stub (by decide) (by decide)

end NodeBuilder
